import Mathlib

/-!
Verification of the convex-rs-ffi bridge (`src/convex-ffi/src/lib.rs`).

This file gives a shallow embedding of the bridge's core:

* the `Value` model (the `Value` enum of the source, with `Float64 =
  OrderedFloat<f64>` modelled by its 64-bit pattern, and Rust `String`s
  modelled as their UTF-8 byte sequences, since Rust's `Ord` on `String`
  is bytewise lexicographic);
* the derived total order on `Value` (Rust `derive(Ord)`: variant
  discriminant first, then the single field, with `Vec`/`BTreeSet`/
  `BTreeMap` compared lexicographically over their iteration order);
* the uniffi `FfiConverter` binary codec: `write` appends a 4-byte
  big-endian `i32` variant index (1-based) followed by the fields, with
  collections written as an `i32` length prefix (via `i32::try_from(len)`,
  which fails for lengths `≥ 2^31` — the `unwrap` panic is modelled as the
  `codecOverflow` error) followed by the encoded elements; `try_read`
  checks remaining bytes (`check_remaining` failure is modelled as the
  `truncatedInput` error) and re-inserts decoded elements into a
  `BTreeSet`/`BTreeMap`, modelled here by sorted-list insertion with the
  exact BTree semantics (`BTreeMap::insert` replaces the value but keeps
  the existing key; `BTreeSet::insert` keeps the existing element);
* the subscription background task loop (`select_biased!` polling the
  update future first and the cancellation receiver second);
* the connection handle (`connect` / `close` / `query` / `mutation` /
  `action` / `subscribe` over the optional `ConvexClient` session slot).

The decoder uses a fuel parameter so that it is structurally recursive;
`readValue` instantiates the fuel with `buffer length + 1`, which the
lemmas below show is always sufficient.
-/

namespace ConvexFFI

/-! ## Primitive comparators (Rust `Ord` on the component types) -/

def natCmp (a b : Nat) : Ordering :=
  if a < b then .lt else if b < a then .gt else .eq

def intCmp (a b : Int) : Ordering :=
  if a < b then .lt else if b < a then .gt else .eq

def boolCmp : Bool → Bool → Ordering
  | false, false => .eq
  | false, true => .lt
  | true, false => .gt
  | true, true => .eq

/-- Lexicographic comparison of sequences, as Rust's `Ord` for
`Vec`/slices/`String` (bytewise) and for `BTreeSet`/`BTreeMap` iteration. -/
def listCmp (c : α → α → Ordering) : List α → List α → Ordering
  | [], [] => .eq
  | [], _ :: _ => .lt
  | _ :: _, [] => .gt
  | x :: xs, y :: ys =>
    match c x y with
    | .eq => listCmp c xs ys
    | o => o

/-- Rust `String` comparison: bytewise lexicographic over the UTF-8 bytes. -/
def strCmp (a b : List Nat) : Ordering := listCmp natCmp a b

/-! ## IEEE-754 binary64 comparison on bit patterns, and `OrderedFloat` -/

def f64Exp (b : Nat) : Nat := b / 2 ^ 52 % 2 ^ 11
def f64Mant (b : Nat) : Nat := b % 2 ^ 52
def f64Sign (b : Nat) : Nat := b / 2 ^ 63 % 2
/-- The bit pattern with the sign bit cleared (the magnitude bits). -/
def f64Mag (b : Nat) : Nat := b % 2 ^ 63

def f64IsNan (b : Nat) : Bool := f64Exp b == 2 ^ 11 - 1 && f64Mant b != 0

/-- Sign-magnitude key: IEEE-754 comparison of two non-NaN binary64 values
ordered by this integer key (magnitude bits, negated when the sign bit is
set; both zeros map to the key `0`). -/
def f64Key (b : Nat) : Int := if f64Sign b == 0 then (f64Mag b : Int) else -(f64Mag b : Int)

/-- `f64::partial_cmp` restricted to non-NaN inputs. -/
def f64NumCmp (a b : Nat) : Ordering := intCmp (f64Key a) (f64Key b)

/-- `OrderedFloat<f64>::cmp`: IEEE comparison when neither side is NaN;
NaN compares equal to NaN and greater than every other value. -/
def floatCmp (a b : Nat) : Ordering :=
  if f64IsNan a then (if f64IsNan b then .eq else .gt)
  else if f64IsNan b then .lt
  else f64NumCmp a b

/-! ## The `Value` enum (`src/convex-ffi/src/lib.rs`, lines 303–316).

Declaration order matters: uniffi's variant indices and the derived `Ord`
both follow it. Canonicity of the `BTreeSet`/`BTreeMap` fields is not part
of the type here (decode needs to build transient non-canonical states);
it is captured by the `wf` predicate below. -/

inductive Value where
  | id (s : List Nat)
  | null
  | int (v : Int)
  | float (bits : Nat)
  | bool (b : Bool)
  | str (s : List Nat)
  | bytes (b : List Nat)
  | arr (vs : List Value)
  | set (vs : List Value)
  | map (ps : List (Value × Value))
  | object (ps : List (List Nat × Value))

/-! ## The derived total order on `Value` (`derive(PartialOrd, Ord)`) -/

mutual

def valueCmp : Value → Value → Ordering
  | .id a, .id b => strCmp a b
  | .id _, _ => .lt
  | _, .id _ => .gt
  | .null, .null => .eq
  | .null, _ => .lt
  | _, .null => .gt
  | .int a, .int b => intCmp a b
  | .int _, _ => .lt
  | _, .int _ => .gt
  | .float a, .float b => floatCmp a b
  | .float _, _ => .lt
  | _, .float _ => .gt
  | .bool a, .bool b => boolCmp a b
  | .bool _, _ => .lt
  | _, .bool _ => .gt
  | .str a, .str b => strCmp a b
  | .str _, _ => .lt
  | _, .str _ => .gt
  | .bytes a, .bytes b => strCmp a b
  | .bytes _, _ => .lt
  | _, .bytes _ => .gt
  | .arr a, .arr b => valsCmp a b
  | .arr _, _ => .lt
  | _, .arr _ => .gt
  | .set a, .set b => valsCmp a b
  | .set _, _ => .lt
  | _, .set _ => .gt
  | .map a, .map b => pairsCmp a b
  | .map _, _ => .lt
  | _, .map _ => .gt
  | .object a, .object b => spairsCmp a b
termination_by structural v => v

def valsCmp : List Value → List Value → Ordering
  | [], [] => .eq
  | [], _ :: _ => .lt
  | _ :: _, [] => .gt
  | x :: xs, y :: ys =>
    match valueCmp x y with
    | .eq => valsCmp xs ys
    | o => o
termination_by structural v => v

def pairsCmp : List (Value × Value) → List (Value × Value) → Ordering
  | [], [] => .eq
  | [], _ :: _ => .lt
  | _ :: _, [] => .gt
  | (k, v) :: xs, (k', v') :: ys =>
    match valueCmp k k' with
    | .eq =>
      match valueCmp v v' with
      | .eq => pairsCmp xs ys
      | o => o
    | o => o
termination_by structural v => v

def spairsCmp : List (List Nat × Value) → List (List Nat × Value) → Ordering
  | [], [] => .eq
  | [], _ :: _ => .lt
  | _ :: _, [] => .gt
  | (k, v) :: xs, (k', v') :: ys =>
    match strCmp k k' with
    | .eq =>
      match valueCmp v v' with
      | .eq => spairsCmp xs ys
      | o => o
    | o => o
termination_by structural v => v

end

/-- Key-wise comparison of `BTreeMap`-style entries (used for sortedness of
the key sequence; entries of a `BTreeMap` are strictly ordered by key). -/
def keyCmp (c : κ → κ → Ordering) (p q : κ × α) : Ordering := c p.1 q.1

/-! ## Sorted-sequence model of `BTreeSet::insert` / `BTreeMap::insert` -/

/-- `BTreeSet::insert` on the sorted element sequence: if an equal element
is already present, the set is unchanged (the existing element is kept). -/
def insertSet (c : α → α → Ordering) (x : α) : List α → List α
  | [] => [x]
  | y :: rest =>
    match c x y with
    | .lt => x :: y :: rest
    | .eq => y :: rest
    | .gt => y :: insertSet c x rest

/-- `BTreeMap::insert` on the sorted entry sequence: if an equal key is
already present, the value is updated and the existing key is kept. -/
def insertKV (c : κ → κ → Ordering) (k : κ) (v : α) : List (κ × α) → List (κ × α)
  | [] => [(k, v)]
  | (k', v') :: rest =>
    match c k k' with
    | .lt => (k, v) :: (k', v') :: rest
    | .eq => (k', v) :: rest
    | .gt => (k', v') :: insertKV c k v rest

/-- Rebuild a `BTreeSet` by inserting the elements in the given order
(the decode loop of `ValueSet::try_read`). -/
def canonSet (vs : List Value) : List Value :=
  vs.foldl (fun acc v => insertSet valueCmp v acc) []

/-- Rebuild a `BTreeMap<Value, Value>` by inserting the entries in the
given order (the decode loop of `ValueMap::try_read`). -/
def canonMap (ps : List (Value × Value)) : List (Value × Value) :=
  ps.foldl (fun acc p => insertKV valueCmp p.1 p.2 acc) []

/-- Rebuild a `BTreeMap<String, Value>` by inserting the entries in the
given order (the decode loop of `ValueObject::try_read`). -/
def canonObj (ps : List (List Nat × Value)) : List (List Nat × Value) :=
  ps.foldl (fun acc p => insertKV strCmp p.1 p.2 acc) []

/-! ## Well-formed (constructible) values

A value is constructible by the Rust code when every scalar is within its
machine range, every byte is a byte, and every `BTreeSet`/`BTreeMap` field
is in canonical form: strictly sorted (hence duplicate-free) in the
respective order. Sortedness is stated pairwise, which is what the BTree
structures guarantee. -/

def validStr (s : List Nat) : Bool := s.all (· < 256)

def pairwiseLt (c : α → α → Ordering) : List α → Bool
  | [] => true
  | x :: xs => xs.all (fun y => c x y == .lt) && pairwiseLt c xs

mutual

def wf : Value → Bool
  | .id s => validStr s
  | .null => true
  | .int v => decide (-(2 ^ 63) ≤ v) && decide (v < 2 ^ 63)
  | .float bits => decide (bits < 2 ^ 64)
  | .bool _ => true
  | .str s => validStr s
  | .bytes b => validStr b
  | .arr vs => wfVals vs
  | .set vs => wfVals vs && pairwiseLt valueCmp vs
  | .map ps => wfPairs ps && pairwiseLt (keyCmp valueCmp) ps
  | .object ps => wfSPairs ps && pairwiseLt (keyCmp strCmp) ps
termination_by structural v => v

def wfVals : List Value → Bool
  | [] => true
  | v :: vs => wf v && wfVals vs
termination_by structural v => v

def wfPairs : List (Value × Value) → Bool
  | [] => true
  | (k, v) :: ps => wf k && wf v && wfPairs ps
termination_by structural v => v

def wfSPairs : List (List Nat × Value) → Bool
  | [] => true
  | (k, v) :: ps => validStr k && wf v && wfSPairs ps
termination_by structural v => v

end

/-! ## The uniffi binary codec: writer

All multi-byte integers are big-endian. `writeLen` models
`i32::try_from(len)` followed by `put_i32`: it fails (the source `unwrap`s,
i.e. panics, which uniffi surfaces as an error status across the FFI
boundary) exactly when the length does not fit in an `i32`. -/

inductive CodecError where
  | codecOverflow
  deriving DecidableEq, Repr

def be32 (n : Nat) : List Nat :=
  [n / 2 ^ 24 % 256, n / 2 ^ 16 % 256, n / 2 ^ 8 % 256, n % 256]

def be64 (n : Nat) : List Nat :=
  [n / 2 ^ 56 % 256, n / 2 ^ 48 % 256, n / 2 ^ 40 % 256, n / 2 ^ 32 % 256,
   n / 2 ^ 24 % 256, n / 2 ^ 16 % 256, n / 2 ^ 8 % 256, n % 256]

def writeLen (n : Nat) : Except CodecError (List Nat) :=
  if n < 2 ^ 31 then .ok (be32 n) else .error .codecOverflow

/-- uniffi `String` (and `Vec<u8>`) write: `i32` length, then the bytes. -/
def writeStr (s : List Nat) : Except CodecError (List Nat) :=
  (writeLen s.length).map (· ++ s)

/-- Two's-complement 64-bit pattern of an `i64`. -/
def i64ToBits (v : Int) : Nat := (v % 2 ^ 64).toNat

mutual

def writeValue : Value → Except CodecError (List Nat)
  | .id s => (writeStr s).map (be32 1 ++ ·)
  | .null => .ok (be32 2)
  | .int v => .ok (be32 3 ++ be64 (i64ToBits v))
  | .float bits => .ok (be32 4 ++ be64 bits)
  | .bool b => .ok (be32 5 ++ [if b then 1 else 0])
  | .str s => (writeStr s).map (be32 6 ++ ·)
  | .bytes b => (writeStr b).map (be32 7 ++ ·)
  | .arr vs => do
    let l ← writeLen vs.length
    let body ← writeVals vs
    .ok (be32 8 ++ l ++ body)
  | .set vs => do
    let l ← writeLen vs.length
    let body ← writeVals vs
    .ok (be32 9 ++ l ++ body)
  | .map ps => do
    let l ← writeLen ps.length
    let body ← writePairs ps
    .ok (be32 10 ++ l ++ body)
  | .object ps => do
    let l ← writeLen ps.length
    let body ← writeSPairs ps
    .ok (be32 11 ++ l ++ body)
termination_by structural v => v

def writeVals : List Value → Except CodecError (List Nat)
  | [] => .ok []
  | v :: vs => do
    let b ← writeValue v
    let rest ← writeVals vs
    .ok (b ++ rest)
termination_by structural v => v

def writePairs : List (Value × Value) → Except CodecError (List Nat)
  | [] => .ok []
  | (k, v) :: ps => do
    let bk ← writeValue k
    let bv ← writeValue v
    let rest ← writePairs ps
    .ok (bk ++ bv ++ rest)
termination_by structural v => v

def writeSPairs : List (List Nat × Value) → Except CodecError (List Nat)
  | [] => .ok []
  | (k, v) :: ps => do
    let bk ← writeStr k
    let bv ← writeValue v
    let rest ← writeSPairs ps
    .ok (bk ++ bv ++ rest)
termination_by structural v => v

end

/-! ## The uniffi binary codec: reader

`check_remaining` failures are `truncatedInput`. A negative `i32` length
(`usize::try_from` failure) is `negativeLength`; an unknown variant index
is `invalidTag`; a boolean byte other than 0/1 is `invalidBool`. The
`fuelExhausted` error is an artifact of the fuel parameter and is shown
never to occur for the fuel chosen by `readValue`. -/

inductive DecodeError where
  | truncatedInput
  | negativeLength
  | invalidTag
  | invalidBool
  | fuelExhausted
  deriving DecidableEq, Repr

def beVal (bs : List Nat) : Nat := bs.foldl (fun a b => a * 256 + b) 0

/-- Read `k` raw bytes (`check_remaining(buf, k)` then `copy_to_bytes`). -/
def rdBE (k : Nat) (buf : List Nat) : Except DecodeError (Nat × List Nat) :=
  if k ≤ buf.length then .ok (beVal (buf.take k), buf.drop k) else .error .truncatedInput

/-- `check_remaining(buf, 4)?; usize::try_from(buf.get_i32())?`: reads an
`i32` big-endian and fails on a negative value. -/
def readLenField (buf : List Nat) : Except DecodeError (Nat × List Nat) := do
  let (n, rest) ← rdBE 4 buf
  if n < 2 ^ 31 then .ok (n, rest) else .error .negativeLength

/-- uniffi `String` / `Vec<u8>` read: length field, then that many bytes. -/
def readString (buf : List Nat) : Except DecodeError (List Nat × List Nat) := do
  let (len, rest) ← readLenField buf
  if len ≤ rest.length then .ok (rest.take len, rest.drop len) else .error .truncatedInput

def bitsToI64 (n : Nat) : Int := if n < 2 ^ 63 then (n : Int) else (n : Int) - 2 ^ 64

/-- `check_remaining(buf, 8)?; buf.get_i64()`. -/
def readI64 (buf : List Nat) : Except DecodeError (Int × List Nat) := do
  let (n, rest) ← rdBE 8 buf
  .ok (bitsToI64 n, rest)

/-- `check_remaining(buf, 1)?;` then `get_i8` matched against 0/1. -/
def readBool (buf : List Nat) : Except DecodeError (Bool × List Nat) :=
  match buf with
  | [] => .error .truncatedInput
  | b :: rest =>
    if b == 0 then .ok (false, rest)
    else if b == 1 then .ok (true, rest)
    else .error .invalidBool

mutual

def readValueF : Nat → List Nat → Except DecodeError (Value × List Nat)
  | 0, _ => .error .fuelExhausted
  | fuel + 1, buf => do
    let (tag, rest) ← rdBE 4 buf
    match tag with
    | 1 => do
      let (s, r) ← readString rest
      .ok (.id s, r)
    | 2 => .ok (.null, rest)
    | 3 => do
      let (v, r) ← readI64 rest
      .ok (.int v, r)
    | 4 => do
      let (n, r) ← rdBE 8 rest
      .ok (.float n, r)
    | 5 => do
      let (b, r) ← readBool rest
      .ok (.bool b, r)
    | 6 => do
      let (s, r) ← readString rest
      .ok (.str s, r)
    | 7 => do
      let (b, r) ← readString rest
      .ok (.bytes b, r)
    | 8 => do
      let (n, r) ← readLenField rest
      let (vs, r') ← readValsF fuel n r
      .ok (.arr vs, r')
    | 9 => do
      let (n, r) ← readLenField rest
      let (vs, r') ← readValsF fuel n r
      .ok (.set (canonSet vs), r')
    | 10 => do
      let (n, r) ← readLenField rest
      let (ps, r') ← readPairsF fuel n r
      .ok (.map (canonMap ps), r')
    | 11 => do
      let (n, r) ← readLenField rest
      let (ps, r') ← readSPairsF fuel n r
      .ok (.object (canonObj ps), r')
    | _ => .error .invalidTag
termination_by structural fuel => fuel

def readValsF : Nat → Nat → List Nat → Except DecodeError (List Value × List Nat)
  | _, 0, buf => .ok ([], buf)
  | 0, _ + 1, _ => .error .fuelExhausted
  | fuel + 1, n + 1, buf => do
    let (v, rest) ← readValueF fuel buf
    let (vs, rest') ← readValsF fuel n rest
    .ok (v :: vs, rest')
termination_by structural fuel => fuel

def readPairsF : Nat → Nat → List Nat → Except DecodeError (List (Value × Value) × List Nat)
  | _, 0, buf => .ok ([], buf)
  | 0, _ + 1, _ => .error .fuelExhausted
  | fuel + 1, n + 1, buf => do
    let (k, rest) ← readValueF fuel buf
    let (v, rest') ← readValueF fuel rest
    let (ps, rest'') ← readPairsF fuel n rest'
    .ok ((k, v) :: ps, rest'')
termination_by structural fuel => fuel

def readSPairsF : Nat → Nat → List Nat → Except DecodeError (List (List Nat × Value) × List Nat)
  | _, 0, buf => .ok ([], buf)
  | 0, _ + 1, _ => .error .fuelExhausted
  | fuel + 1, n + 1, buf => do
    let (k, rest) ← readString buf
    let (v, rest') ← readValueF fuel rest
    let (ps, rest'') ← readSPairsF fuel n rest'
    .ok ((k, v) :: ps, rest'')
termination_by structural fuel => fuel

end

/-- Top-level decode of one `Value`. A buffer of length `L` can hold at
most `L` nested reads, so fuel `L + 1` never runs out (proved below). -/
def readValue (buf : List Nat) : Except DecodeError (Value × List Nat) :=
  readValueF (buf.length + 1) buf

/-! ## Fuel requirements of a successful decode -/

mutual

def vfuel : Value → Nat
  | .arr vs => 1 + vsfuel vs
  | .set vs => 1 + vsfuel vs
  | .map ps => 1 + psfuel ps
  | .object ps => 1 + spfuel ps
  | _ => 1
termination_by structural v => v

def vsfuel : List Value → Nat
  | [] => 0
  | v :: vs => 1 + max (vfuel v) (vsfuel vs)
termination_by structural v => v

def psfuel : List (Value × Value) → Nat
  | [] => 0
  | (k, v) :: ps => 1 + max (vfuel k) (max (vfuel v) (psfuel ps))
termination_by structural v => v

def spfuel : List (List Nat × Value) → Nat
  | [] => 0
  | (_, v) :: ps => 1 + max (vfuel v) (spfuel ps)
termination_by structural v => v

end

/-! ## The subscription background task loop

`Client::subscribe` spawns a task running

```
loop {
    select_biased! {
        result = subscription.next().fuse() => { ... }
        _ = unsubscribe_fut => { break }
    }
}
```

`select_biased!` polls the listed futures in order: the update future
first, the cancellation receiver second. One loop iteration is driven by
an `IterInput` describing which of the two futures is ready when the
select polls them. -/

/-- `FunctionResult` of the external `convex` client. -/
inductive FunctionResult where
  | value (v : Value)
  | errorMessage (message : String)

/-- Readiness of the two selected futures at one loop iteration:
`upd = some r` means `subscription.next()` is ready with `r`
(`r = none` is stream exhaustion), `upd = none` means it is pending;
`cancel` tells whether the cancellation receiver is ready. -/
structure IterInput where
  upd : Option (Option FunctionResult)
  cancel : Bool

/-- One `select_biased!` round: `none` means the cancellation branch ran
`break`; `some (some v)` means the update branch invoked the callback
with `v`; `some none` means the loop continues without a callback (a
server error message was logged, the exhausted stream returned `None`
so the `if let Some` did nothing, or nothing was ready yet). The update
branch is polled first, so it wins whenever it is ready. -/
def stepIter (i : IterInput) : Option (Option Value) :=
  match i.upd with
  | some (some (.value v)) => some (some v)
  | some (some (.errorMessage _)) => some none
  | some none => some none
  | none => if i.cancel then none else some none

/-- Run the task loop over a sequence of iteration inputs; returns the
callback invocations in order, and whether the task has exited. -/
def runLoop : List IterInput → List Value × Bool
  | [] => ([], false)
  | i :: rest =>
    match stepIter i with
    | none => ([], true)
    | some ev =>
      let (cbs, t) := runLoop rest
      (ev.toList ++ cbs, t)

/-! ## The connection handle

`Client` holds `_inner : Mutex<Option<ConvexClient>>`. The external
`ConvexClient` is opaque; it is modelled by a token. Each operation's
interaction with the external client is abstracted by passing the
outcome the external client would produce, and each operation reports
whether it reached the external client at all. -/

/-- Opaque stand-in for the external `ConvexClient` session object. -/
abbrev ExtClient : Type := Nat

inductive SubscribeError where
  | generic (message : String)
  deriving DecidableEq

/-- Result of one handle operation, together with whether the external
client was contacted. -/
structure OpOutcome (α : Type) where
  result : Except SubscribeError α
  contactedClient : Bool

/-- `Client::new`: the session slot starts empty. -/
def newClientState : Option ExtClient := none

/-- `Client::connect`: `ConvexClient::new(url).await` produces `outcome`;
on `Ok` the session is installed (`inner.replace(client)`), on `Err` the
`if let Ok` pattern fails and the slot is left untouched. The function
is total: no error is propagated to the caller. -/
def connectOp (st : Option ExtClient) (outcome : Except String ExtClient) : Option ExtClient :=
  match outcome with
  | .ok c => some c
  | .error _ => st

/-- `Client::close`: `self._inner.lock().await.take()`. -/
def closeOp (_st : Option ExtClient) : Option ExtClient := none

/-- `Client::client`: the no-session guard shared by the four operations. -/
def clientGet (st : Option ExtClient) : Except SubscribeError ExtClient :=
  match st with
  | some c => .ok c
  | none => .error (.generic "No client set")

/-- `Client::query`: guard, then forward to the external client and map
`FunctionResult` to `Ok`/`Err`. -/
def queryOp (st : Option ExtClient) (remote : FunctionResult) : OpOutcome Value :=
  match clientGet st with
  | .error e => ⟨.error e, false⟩
  | .ok _ =>
    match remote with
    | .value v => ⟨.ok v, true⟩
    | .errorMessage m => ⟨.error (.generic m), true⟩

/-- `Client::mutation`: same shape as `query`. -/
def mutationOp (st : Option ExtClient) (remote : FunctionResult) : OpOutcome Value :=
  match clientGet st with
  | .error e => ⟨.error e, false⟩
  | .ok _ =>
    match remote with
    | .value v => ⟨.ok v, true⟩
    | .errorMessage m => ⟨.error (.generic m), true⟩

/-- `Client::action`: same shape as `query`. -/
def actionOp (st : Option ExtClient) (remote : FunctionResult) : OpOutcome Value :=
  match clientGet st with
  | .error e => ⟨.error e, false⟩
  | .ok _ =>
    match remote with
    | .value v => ⟨.ok v, true⟩
    | .errorMessage m => ⟨.error (.generic m), true⟩

/-- `Client::subscribe`: guard, then `client.subscribe(...)` and spawn of
the background task (the returned `Subscription` handle is abstracted). -/
def subscribeOp (st : Option ExtClient) : OpOutcome Unit :=
  match clientGet st with
  | .error e => ⟨.error e, false⟩
  | .ok _ => ⟨.ok (), true⟩

/-! ## Raw (non-canonical) collection encodings

`write` always emits the collection in its iteration order; an arbitrary
byte stream claiming to be a Map/Object may list entries in any order and
with duplicate keys. Any such stream is the length prefix followed by the
entries in stream order — i.e. `writePairs`/`writeSPairs` applied to an
arbitrary (not necessarily sorted or duplicate-free) entry list. -/

/-- The bytes of a Map encoding whose stream lists `ps` in order. -/
def rawMapBytes (ps : List (Value × Value)) : Except CodecError (List Nat) := do
  let l ← writeLen ps.length
  let body ← writePairs ps
  .ok (be32 10 ++ l ++ body)

/-- The bytes of an Object encoding whose stream lists `ps` in order. -/
def rawObjectBytes (ps : List (List Nat × Value)) : Except CodecError (List Nat) := do
  let l ← writeLen ps.length
  let body ← writeSPairs ps
  .ok (be32 11 ++ l ++ body)

/-- First value bound to a key `cmp`-equal to `k` (lookup in the decoded,
canonically sorted entry list, where at most one key can match). -/
def lookupBy (c : κ → κ → Ordering) (k : κ) : List (κ × α) → Option α
  | [] => none
  | (k', v) :: rest => if c k k' = .eq then some v else lookupBy c k rest

/-- Value of the last occurrence in stream order of a key `cmp`-equal to
`k`, if any. -/
def lastBinding (c : κ → κ → Ordering) (k : κ) (ps : List (κ × α)) : Option α :=
  ps.foldl (fun acc p => if c k p.1 = .eq then some p.2 else acc) none

/-- Transitivity of `fun a b => c a b ≠ .gt` at a triple (the "≤" induced
by a comparator). Together with the swap law this yields all the
order-theoretic facts used below. -/
def leT (c : α → α → Ordering) (x y z : α) : Prop :=
  c x y ≠ .gt → c y z ≠ .gt → c x z ≠ .gt

/-- Lexicographic comparison of pairs (Rust's derived `Ord` on tuples);
`pairsCmp`/`spairsCmp` are `listCmp` over this. -/
def prodCmp (ck : κ → κ → Ordering) (cv : α → α → Ordering) (p q : κ × α) : Ordering :=
  match ck p.1 q.1 with
  | .eq => cv p.2 q.2
  | o => o

/-- Variant discriminant in declaration order (what Rust's derived `Ord`
compares first). -/
def vtag : Value → Nat
  | .id _ => 0
  | .null => 1
  | .int _ => 2
  | .float _ => 3
  | .bool _ => 4
  | .str _ => 5
  | .bytes _ => 6
  | .arr _ => 7
  | .set _ => 8
  | .map _ => 9
  | .object _ => 10

/-! # Theorems -/

/-! ## The subscription task loop: claims C4, C5, C9 -/

/-- Claim C4, counterexample: with the cancellation signal ready
(`cancel = true`) and an update simultaneously ready, the loop delivers
the update — the callback fires and the task keeps running, because
`select_biased!` polls `subscription.next()` before the cancellation
receiver. -/
theorem c4_counterexample :
    runLoop [⟨some (some (.value .null)), true⟩] = ([Value.null], false) := rfl

/-- Claim C4 as amended: the update branch has priority. The cancellation
branch is taken exactly at an iteration where the update future is
pending and cancellation is ready; once it is taken the task exits, and
no later update produces a callback invocation. -/
theorem c4_amended_update_branch_priority (pre post : List IterInput) (i : IterInput)
    (hpre : ∀ j ∈ pre, stepIter j ≠ none)
    (hi : i.upd = none ∧ i.cancel = true) :
    runLoop (pre ++ i :: post) = ((runLoop pre).1, true) ∧
      (∀ j : IterInput, stepIter j = none ↔ (j.upd = none ∧ j.cancel = true)) := by
  constructor
  · induction pre with
    | nil =>
      simp only [List.nil_append, runLoop, stepIter, hi.1, hi.2, if_true]
    | cons j rest ih =>
      have hj : stepIter j ≠ none := hpre j (List.mem_cons_self ..)
      have hrest : ∀ j' ∈ rest, stepIter j' ≠ none := fun j' h => hpre j' (List.mem_cons_of_mem _ h)
      rcases h : stepIter j with _ | ev
      · exact absurd h hj
      · simp only [List.cons_append, runLoop, h]
        rw [show rest.append (i :: post) = rest ++ i :: post from rfl, ih hrest]
  · intro j
    unfold stepIter
    rcases j with ⟨_ | (_ | r), c⟩
    · cases c <;> simp
    · simp
    · rcases r with v | m <;> simp

/-- Witness for `c4_amended_update_branch_priority`: one delivered update,
then simultaneous pending-update/ready-cancellation, then one more update
that is discarded — the callback list is exactly the pre-cancellation
value and the task has exited. -/
theorem c4_amended_witness :
    runLoop [⟨some (some (.value .null)), false⟩, ⟨none, true⟩,
      ⟨some (some (.value (.int 1))), false⟩] = ([Value.null], true) := by
  have h := (c4_amended_update_branch_priority [⟨some (some (.value .null)), false⟩]
    [⟨some (some (.value (.int 1))), false⟩] ⟨none, true⟩
    (by intro j hj; rcases List.mem_singleton.mp hj with rfl; simp [stepIter])
    (by exact ⟨rfl, rfl⟩)).1
  simpa [runLoop, stepIter] using h

/-- Claim C5 at the failing input: when the feed is exhausted the stream
keeps returning `None`; the `if let Some(result)` arm does nothing and the
loop re-polls forever. After any number of such iterations (cancellation
never fired) the task has not terminated — contradicting the claim that
feed exhaustion ends the task. -/
theorem c5_exhausted_feed_never_terminates (n : Nat) :
    runLoop (List.replicate n ⟨some none, false⟩) = ([], false) := by
  induction n with
  | zero => rfl
  | succ m ih => simp [List.replicate_succ, runLoop, stepIter, ih]

/-- Claim C9: a feed yielding one `ErrorMessage` and then one `Value`
invokes the callback exactly once, with the second item's value, and the
task is still running after both items (the error is only logged). -/
theorem c9_server_error_survival (m : String) (v : Value) :
    runLoop [⟨some (some (.errorMessage m)), false⟩, ⟨some (some (.value v)), false⟩]
      = ([v], false) := by
  simp [runLoop, stepIter]

/-! ## The connection handle: claims C7, C8 -/

/-- Claim C7: with no live session (the state after `Client::new` and
after `close`), each of `query`, `mutation`, `action` and `subscribe`
fails with the no-active-connection error (`"No client set"`) and does
not contact the external client. -/
theorem c7_no_session_guard (remote : FunctionResult) :
    queryOp none remote = ⟨.error (.generic "No client set"), false⟩ ∧
    mutationOp none remote = ⟨.error (.generic "No client set"), false⟩ ∧
    actionOp none remote = ⟨.error (.generic "No client set"), false⟩ ∧
    subscribeOp none = ⟨.error (.generic "No client set"), false⟩ ∧
    newClientState = none ∧ (∀ st, closeOp st = none) := by
  exact ⟨rfl, rfl, rfl, rfl, rfl, fun _ => rfl⟩

/-- Claim C8, counterexample: a failed `connect` on a handle that already
holds a live session leaves that session installed — the handle is *not*
in the "no session" state afterward. -/
theorem c8_counterexample :
    connectOp (some (0 : ExtClient)) (.error "connection refused") = some 0 ∧
      connectOp (some (0 : ExtClient)) (.error "connection refused") ≠ none := by
  exact ⟨rfl, by simp [connectOp]⟩

/-- Claim C8 as amended: a failed `connect` returns normally (the model
is a total function — no error is propagated) and leaves the session
slot unchanged; in particular a handle with no session stays in the
"no session" state. -/
theorem c8_amended_failed_connect_keeps_state (st : Option ExtClient) (e : String) :
    connectOp st (.error e) = st ∧ connectOp none (.error e) = none := ⟨rfl, rfl⟩

/-! ## Primitive comparator facts -/

theorem natCmp_eq_iff (a b : Nat) : natCmp a b = .eq ↔ a = b := by
  unfold natCmp; split_ifs <;> simp <;> omega

theorem natCmp_lt_iff (a b : Nat) : natCmp a b = .lt ↔ a < b := by
  unfold natCmp; split_ifs <;> simp <;> omega

theorem natCmp_gt_iff (a b : Nat) : natCmp a b = .gt ↔ b < a := by
  unfold natCmp; split_ifs <;> simp <;> omega

theorem natCmp_swap (a b : Nat) : natCmp a b = (natCmp b a).swap := by
  unfold natCmp; split_ifs <;> simp [Ordering.swap] <;> omega

theorem natCmp_leT (a b c : Nat) : leT natCmp a b c := by
  unfold leT natCmp; split_ifs <;> simp <;> omega

theorem intCmp_eq_iff (a b : Int) : intCmp a b = .eq ↔ a = b := by
  unfold intCmp; split_ifs <;> simp <;> omega

theorem intCmp_swap (a b : Int) : intCmp a b = (intCmp b a).swap := by
  unfold intCmp; split_ifs <;> simp [Ordering.swap] <;> omega

theorem intCmp_leT (a b c : Int) : leT intCmp a b c := by
  unfold leT intCmp; split_ifs <;> simp <;> omega

theorem boolCmp_swap (a b : Bool) : boolCmp a b = (boolCmp b a).swap := by
  cases a <;> cases b <;> rfl

theorem boolCmp_leT (a b c : Bool) : leT boolCmp a b c := by
  cases a <;> cases b <;> cases c <;> simp [leT, boolCmp]

theorem floatCmp_swap (a b : Nat) : floatCmp a b = (floatCmp b a).swap := by
  unfold floatCmp f64NumCmp
  cases hna : f64IsNan a <;> cases hnb : f64IsNan b <;> simp
  · rw [intCmp_swap]
  · rfl
  · rfl
  · rfl

theorem floatCmp_leT (a b c : Nat) : leT floatCmp a b c := by
  unfold leT floatCmp f64NumCmp
  cases hna : f64IsNan a <;> cases hnb : f64IsNan b <;> cases hnc : f64IsNan c <;> simp
  exact intCmp_leT (f64Key a) (f64Key b) (f64Key c)

/-! ## Float ordering: claim C3 -/

/-- Claim C3, counterexample: `Float(+0.0)` (bit pattern 0) and
`Float(-0.0)` (bit pattern `2^63`) compare equal in the derived total
order on `Value` even though their 64-bit patterns differ —
`OrderedFloat` uses IEEE comparison for non-NaN values, under which the
two zeros are equal. -/
theorem c3_counterexample :
    valueCmp (.float 0) (.float (2 ^ 63)) = .eq ∧ (0 : Nat) ≠ 2 ^ 63 := by
  exact ⟨by decide, by decide⟩

/-- A value with zero magnitude bits (one of the two signed zeros) is not
a NaN: its mantissa field is zero. -/
theorem f64IsNan_eq_false_of_mag_zero (b : Nat) (h : f64Mag b = 0) : f64IsNan b = false := by
  have hm : f64Mant b = 0 := by
    unfold f64Mant
    unfold f64Mag at h
    omega
  unfold f64IsNan
  rw [hm]
  simp

/-- The sign-magnitude key of a binary64 bit pattern, with the sign bit
read off explicitly. -/
theorem f64Key_spec (a : Nat) (ha : a < 2 ^ 64) :
    (a < 2 ^ 63 ∧ f64Key a = (a : Int)) ∨
      (2 ^ 63 ≤ a ∧ f64Key a = -((a : Int) - 2 ^ 63)) := by
  unfold f64Key f64Sign f64Mag
  rcases Nat.lt_or_ge a (2 ^ 63) with h | h
  · left
    refine ⟨h, ?_⟩
    have e : a / 2 ^ 63 % 2 = 0 := by omega
    rw [e]
    simp
    omega
  · right
    refine ⟨h, ?_⟩
    have e : a / 2 ^ 63 % 2 = 1 := by omega
    rw [e]
    simp
    omega

/-- Two in-range bit patterns have equal sign-magnitude keys exactly when
they are identical or both are zeros. -/
theorem f64Key_eq_iff (a b : Nat) (ha : a < 2 ^ 64) (hb : b < 2 ^ 64) :
    f64Key a = f64Key b ↔ (a = b ∨ (f64Mag a = 0 ∧ f64Mag b = 0)) := by
  have hma : f64Mag a = a % 2 ^ 63 := rfl
  have hmb : f64Mag b = b % 2 ^ 63 := rfl
  rcases f64Key_spec a ha with ⟨h1, e1⟩ | ⟨h1, e1⟩ <;>
    rcases f64Key_spec b hb with ⟨h2, e2⟩ | ⟨h2, e2⟩ <;>
    rw [e1, e2, hma, hmb] <;> omega

/-- Claim C3 as amended: two `Float` values compare equal exactly when
their bit patterns are identical, both are zeros (`+0.0`/`-0.0`), or both
are NaNs; and NaN sorts consistently — every NaN is placed strictly above
every non-NaN float (and any two NaNs are equal). -/
theorem c3_amended_float_total_order (a b : Nat) (ha : a < 2 ^ 64) (hb : b < 2 ^ 64) :
    (valueCmp (.float a) (.float b) = .eq ↔
      (a = b ∨ (f64Mag a = 0 ∧ f64Mag b = 0) ∨ (f64IsNan a = true ∧ f64IsNan b = true))) ∧
    (f64IsNan a = true → f64IsNan b = false → valueCmp (.float a) (.float b) = .gt) ∧
    (f64IsNan a = false → f64IsNan b = true → valueCmp (.float a) (.float b) = .lt) := by
  rw [show valueCmp (Value.float a) (Value.float b) = floatCmp a b from rfl]
  unfold floatCmp f64NumCmp
  cases hna : f64IsNan a <;> cases hnb : f64IsNan b <;> simp [hna, hnb]
  · -- neither is NaN: IEEE comparison of the sign-magnitude keys
    rw [intCmp_eq_iff, f64Key_eq_iff a b ha hb]
  · -- only `b` is NaN: neither "identical bits" nor "both zeros" can hold
    constructor
    · intro h
      subst h
      rw [hna] at hnb
      simp at hnb
    · intro h1 h2
      rw [f64IsNan_eq_false_of_mag_zero b h2] at hnb
      simp at hnb
  · -- only `a` is NaN: symmetric
    constructor
    · intro h
      subst h
      rw [hnb] at hna
      simp at hna
    · intro h1 h2
      rw [f64IsNan_eq_false_of_mag_zero a h1] at hna
      simp at hna

/-- Witness for `c3_amended_float_total_order`: concrete instances — the
two zeros compare equal with distinct bit patterns, and a quiet NaN
pattern sorts above `1.0` (bit pattern `0x3FF0000000000000`). -/
theorem c3_amended_witness :
    valueCmp (.float 0) (.float (2 ^ 63)) = .eq ∧
      valueCmp (.float 0x7FF8000000000000) (.float 0x3FF0000000000000) = .gt := by
  constructor
  · exact ((c3_amended_float_total_order 0 (2 ^ 63) (by decide) (by decide)).1).2
      (Or.inr (Or.inl (by decide)))
  · exact ((c3_amended_float_total_order 0x7FF8000000000000 0x3FF0000000000000
      (by decide) (by decide)).2).1 (by decide) (by decide)

/-! ## Collection length overflow: claim C2 -/

/-- Claim C2: encoding any collection value with `2^31` or more elements
fails with the codec-overflow condition (the `i32::try_from(len).unwrap()`
in each `write`), rather than silently truncating. -/
theorem c2_length_overflow (vs : List Value) (ps : List (Value × Value))
    (sps : List (List Nat × Value))
    (hv : 2 ^ 31 ≤ vs.length) (hp : 2 ^ 31 ≤ ps.length) (hs : 2 ^ 31 ≤ sps.length) :
    writeValue (.arr vs) = .error .codecOverflow ∧
    writeValue (.set vs) = .error .codecOverflow ∧
    writeValue (.map ps) = .error .codecOverflow ∧
    writeValue (.object sps) = .error .codecOverflow := by
  refine ⟨?_, ?_, ?_, ?_⟩ <;>
  · simp only [writeValue, writeLen]
    rw [if_neg (by omega)]
    rfl

/-- Witness for `c2_length_overflow` at collections of exactly `2^31`
elements. -/
theorem c2_length_overflow_witness :
    writeValue (.arr (List.replicate (2 ^ 31) Value.null)) = .error .codecOverflow ∧
    writeValue (.set (List.replicate (2 ^ 31) Value.null)) = .error .codecOverflow ∧
    writeValue (.map (List.replicate (2 ^ 31) (Value.null, Value.null))) = .error .codecOverflow ∧
    writeValue (.object (List.replicate (2 ^ 31) ([], Value.null))) = .error .codecOverflow :=
  c2_length_overflow _ _ _ (by rw [List.length_replicate]) (by rw [List.length_replicate])
    (by rw [List.length_replicate])

/-! ## Byte-level lemmas -/

theorem bindOk (a : α) (f : α → Except ε β) : (Except.ok a >>= f) = f a := rfl

theorem bindErr (e : ε) (f : α → Except ε β) : (Except.error e >>= f : Except ε β) = .error e := rfl

theorem mapOk (a : α) (f : α → β) : (Except.ok a : Except ε α).map f = .ok (f a) := rfl

theorem mapErr (e : ε) (f : α → β) : (Except.error e : Except ε α).map f = .error e := rfl

theorem take_append_of_length_le (l1 l2 : List α) (n : Nat) (h : l1.length ≤ n) :
    (l1 ++ l2).take n = l1 ++ l2.take (n - l1.length) := by
  rw [List.take_append_eq_append_take, List.take_of_length_le h]

theorem drop_append_of_length_le (l1 l2 : List α) (n : Nat) (h : l1.length ≤ n) :
    (l1 ++ l2).drop n = l2.drop (n - l1.length) := by
  rw [List.drop_append_eq_append_drop, List.drop_of_length_le h, List.nil_append]

theorem length_be32 (n : Nat) : (be32 n).length = 4 := rfl

theorem length_be64 (n : Nat) : (be64 n).length = 8 := rfl

theorem beVal_be32 (n : Nat) (h : n < 2 ^ 32) : beVal (be32 n) = n := by
  simp [beVal, be32]
  omega

theorem beVal_be64 (n : Nat) (h : n < 2 ^ 64) : beVal (be64 n) = n := by
  simp [beVal, be64]
  omega

theorem rdBE_append (k : Nat) (pre rest : List Nat) (h : pre.length = k) :
    rdBE k (pre ++ rest) = .ok (beVal pre, rest) := by
  unfold rdBE
  rw [if_pos (by simp [h])]
  rw [← h, List.take_left, List.drop_left]

theorem rdBE_short (k : Nat) (buf : List Nat) (h : buf.length < k) :
    rdBE k buf = .error .truncatedInput := by
  unfold rdBE
  rw [if_neg (by omega)]

theorem readLenField_be32 (n : Nat) (rest : List Nat) (h : n < 2 ^ 31) :
    readLenField (be32 n ++ rest) = .ok (n, rest) := by
  unfold readLenField
  rw [rdBE_append 4 (be32 n) rest rfl, beVal_be32 n (by omega), bindOk]
  dsimp only
  rw [if_pos h]

theorem writeLen_ok (n : Nat) (bs : List Nat) (h : writeLen n = .ok bs) :
    n < 2 ^ 31 ∧ bs = be32 n := by
  unfold writeLen at h
  by_cases hc : n < 2 ^ 31
  · rw [if_pos hc] at h
    exact ⟨hc, by injection h with h'; exact h'.symm⟩
  · rw [if_neg hc] at h
    simp at h

theorem writeStr_ok (s bs : List Nat) (h : writeStr s = .ok bs) :
    s.length < 2 ^ 31 ∧ bs = be32 s.length ++ s := by
  unfold writeStr at h
  cases hw : writeLen s.length with
  | error e => rw [hw, mapErr] at h; simp at h
  | ok l =>
    obtain ⟨h1, rfl⟩ := writeLen_ok _ _ hw
    rw [hw, mapOk] at h
    injection h with h'
    exact ⟨h1, h'.symm⟩

theorem readString_of_writeStr (s bs rest : List Nat) (h : writeStr s = .ok bs) :
    readString (bs ++ rest) = .ok (s, rest) := by
  obtain ⟨h1, rfl⟩ := writeStr_ok s bs h
  unfold readString
  rw [List.append_assoc, readLenField_be32 s.length (s ++ rest) h1, bindOk]
  dsimp only
  rw [if_pos (by simp), List.take_left, List.drop_left]

theorem readString_trunc (s bs : List Nat) (k : Nat) (h : writeStr s = .ok bs)
    (hk : k < bs.length) : readString (bs.take k) = .error .truncatedInput := by
  obtain ⟨h1, rfl⟩ := writeStr_ok s bs h
  unfold readString
  have e4 : (be32 s.length).length = 4 := rfl
  rw [List.length_append, e4] at hk
  rcases Nat.lt_or_ge k 4 with h4 | h4
  · have herr : readLenField ((be32 s.length ++ s).take k) = .error .truncatedInput := by
      unfold readLenField
      rw [rdBE_short 4 _ (by rw [List.length_take]; omega), bindErr]
    rw [herr, bindErr]
  · rw [take_append_of_length_le _ _ _ (by rw [e4]; omega),
      readLenField_be32 s.length _ h1, bindOk]
    dsimp only
    rw [e4, List.length_take_of_le (by omega : k - 4 ≤ s.length)]
    rw [if_neg (by omega)]

theorem bitsToI64_i64ToBits (v : Int) (h1 : -(2 ^ 63) ≤ v) (h2 : v < 2 ^ 63) :
    bitsToI64 (i64ToBits v) = v := by
  unfold bitsToI64 i64ToBits
  split_ifs with h <;> omega

theorem i64ToBits_lt (v : Int) : i64ToBits v < 2 ^ 64 := by
  unfold i64ToBits
  omega

theorem readI64_of_write (v : Int) (rest : List Nat) (h1 : -(2 ^ 63) ≤ v) (h2 : v < 2 ^ 63) :
    readI64 (be64 (i64ToBits v) ++ rest) = .ok (v, rest) := by
  unfold readI64
  rw [rdBE_append 8 _ rest (length_be64 _), beVal_be64 _ (i64ToBits_lt v), bindOk]
  dsimp only
  rw [bitsToI64_i64ToBits v h1 h2]

theorem readBool_of_write (b : Bool) (rest : List Nat) :
    readBool ((if b then 1 else 0) :: rest) = .ok (b, rest) := by
  cases b <;> rfl

/-! ## Inversion of the writer -/

theorem writeValue_id_ok (s : List Nat) (bs : List Nat) (h : writeValue (.id s) = .ok bs) :
    ∃ sb, writeStr s = .ok sb ∧ bs = be32 1 ++ sb := by
  simp only [writeValue] at h
  cases hw : writeStr s with
  | error e => rw [hw, mapErr] at h; simp at h
  | ok sb =>
    rw [hw, mapOk] at h
    injection h with h'
    exact ⟨sb, rfl, h'.symm⟩

theorem writeValue_str_ok (s : List Nat) (bs : List Nat) (h : writeValue (.str s) = .ok bs) :
    ∃ sb, writeStr s = .ok sb ∧ bs = be32 6 ++ sb := by
  simp only [writeValue] at h
  cases hw : writeStr s with
  | error e => rw [hw, mapErr] at h; simp at h
  | ok sb =>
    rw [hw, mapOk] at h
    injection h with h'
    exact ⟨sb, rfl, h'.symm⟩

theorem writeValue_bytes_ok (s : List Nat) (bs : List Nat) (h : writeValue (.bytes s) = .ok bs) :
    ∃ sb, writeStr s = .ok sb ∧ bs = be32 7 ++ sb := by
  simp only [writeValue] at h
  cases hw : writeStr s with
  | error e => rw [hw, mapErr] at h; simp at h
  | ok sb =>
    rw [hw, mapOk] at h
    injection h with h'
    exact ⟨sb, rfl, h'.symm⟩

theorem writeValue_arr_ok (vs : List Value) (bs : List Nat) (h : writeValue (.arr vs) = .ok bs) :
    ∃ body, writeVals vs = .ok body ∧ vs.length < 2 ^ 31 ∧
      bs = be32 8 ++ be32 vs.length ++ body := by
  simp only [writeValue] at h
  cases hl : writeLen vs.length with
  | error e => rw [hl, bindErr] at h; simp at h
  | ok l =>
    obtain ⟨h1, rfl⟩ := writeLen_ok _ _ hl
    rw [hl, bindOk] at h
    cases hb : writeVals vs with
    | error e => rw [hb, bindErr] at h; simp at h
    | ok body =>
      rw [hb, bindOk] at h
      injection h with h'
      exact ⟨body, rfl, h1, by rw [← h', List.append_assoc]⟩

theorem writeValue_set_ok (vs : List Value) (bs : List Nat) (h : writeValue (.set vs) = .ok bs) :
    ∃ body, writeVals vs = .ok body ∧ vs.length < 2 ^ 31 ∧
      bs = be32 9 ++ be32 vs.length ++ body := by
  simp only [writeValue] at h
  cases hl : writeLen vs.length with
  | error e => rw [hl, bindErr] at h; simp at h
  | ok l =>
    obtain ⟨h1, rfl⟩ := writeLen_ok _ _ hl
    rw [hl, bindOk] at h
    cases hb : writeVals vs with
    | error e => rw [hb, bindErr] at h; simp at h
    | ok body =>
      rw [hb, bindOk] at h
      injection h with h'
      exact ⟨body, rfl, h1, by rw [← h', List.append_assoc]⟩

theorem writeValue_map_ok (ps : List (Value × Value)) (bs : List Nat)
    (h : writeValue (.map ps) = .ok bs) :
    ∃ body, writePairs ps = .ok body ∧ ps.length < 2 ^ 31 ∧
      bs = be32 10 ++ be32 ps.length ++ body := by
  simp only [writeValue] at h
  cases hl : writeLen ps.length with
  | error e => rw [hl, bindErr] at h; simp at h
  | ok l =>
    obtain ⟨h1, rfl⟩ := writeLen_ok _ _ hl
    rw [hl, bindOk] at h
    cases hb : writePairs ps with
    | error e => rw [hb, bindErr] at h; simp at h
    | ok body =>
      rw [hb, bindOk] at h
      injection h with h'
      exact ⟨body, rfl, h1, by rw [← h', List.append_assoc]⟩

theorem writeValue_object_ok (ps : List (List Nat × Value)) (bs : List Nat)
    (h : writeValue (.object ps) = .ok bs) :
    ∃ body, writeSPairs ps = .ok body ∧ ps.length < 2 ^ 31 ∧
      bs = be32 11 ++ be32 ps.length ++ body := by
  simp only [writeValue] at h
  cases hl : writeLen ps.length with
  | error e => rw [hl, bindErr] at h; simp at h
  | ok l =>
    obtain ⟨h1, rfl⟩ := writeLen_ok _ _ hl
    rw [hl, bindOk] at h
    cases hb : writeSPairs ps with
    | error e => rw [hb, bindErr] at h; simp at h
    | ok body =>
      rw [hb, bindOk] at h
      injection h with h'
      exact ⟨body, rfl, h1, by rw [← h', List.append_assoc]⟩

theorem writeVals_cons_ok (v : Value) (vs : List Value) (bs : List Nat)
    (h : writeVals (v :: vs) = .ok bs) :
    ∃ b rest, writeValue v = .ok b ∧ writeVals vs = .ok rest ∧ bs = b ++ rest := by
  simp only [writeVals] at h
  cases hv : writeValue v with
  | error e => rw [hv, bindErr] at h; simp at h
  | ok b =>
    rw [hv, bindOk] at h
    cases hr : writeVals vs with
    | error e => rw [hr, bindErr] at h; simp at h
    | ok rest =>
      rw [hr, bindOk] at h
      injection h with h'
      exact ⟨b, rest, rfl, rfl, h'.symm⟩

theorem writePairs_cons_ok (k v : Value) (ps : List (Value × Value)) (bs : List Nat)
    (h : writePairs ((k, v) :: ps) = .ok bs) :
    ∃ bk bv rest, writeValue k = .ok bk ∧ writeValue v = .ok bv ∧
      writePairs ps = .ok rest ∧ bs = bk ++ bv ++ rest := by
  simp only [writePairs] at h
  cases hk : writeValue k with
  | error e => rw [hk, bindErr] at h; simp at h
  | ok bk =>
    rw [hk, bindOk] at h
    cases hv : writeValue v with
    | error e => rw [hv, bindErr] at h; simp at h
    | ok bv =>
      rw [hv, bindOk] at h
      cases hr : writePairs ps with
      | error e => rw [hr, bindErr] at h; simp at h
      | ok rest =>
        rw [hr, bindOk] at h
        injection h with h'
        exact ⟨bk, bv, rest, rfl, rfl, rfl, h'.symm⟩

theorem writeSPairs_cons_ok (k : List Nat) (v : Value) (ps : List (List Nat × Value))
    (bs : List Nat) (h : writeSPairs ((k, v) :: ps) = .ok bs) :
    ∃ bk bv rest, writeStr k = .ok bk ∧ writeValue v = .ok bv ∧
      writeSPairs ps = .ok rest ∧ bs = bk ++ bv ++ rest := by
  simp only [writeSPairs] at h
  cases hk : writeStr k with
  | error e => rw [hk, bindErr] at h; simp at h
  | ok bk =>
    rw [hk, bindOk] at h
    cases hv : writeValue v with
    | error e => rw [hv, bindErr] at h; simp at h
    | ok bv =>
      rw [hv, bindOk] at h
      cases hr : writeSPairs ps with
      | error e => rw [hr, bindErr] at h; simp at h
      | ok rest =>
        rw [hr, bindOk] at h
        injection h with h'
        exact ⟨bk, bv, rest, rfl, rfl, rfl, h'.symm⟩

/-! ## Comparator laws: swap and ≤-transitivity -/

theorem swap_lt_iff {c : α → α → Ordering} {a b : α} (hsw : c a b = (c b a).swap) :
    c a b = .lt ↔ c b a = .gt := by
  rw [hsw]; cases c b a <;> simp [Ordering.swap]

theorem swap_eq_iff {c : α → α → Ordering} {a b : α} (hsw : c a b = (c b a).swap) :
    c a b = .eq ↔ c b a = .eq := by
  rw [hsw]; cases c b a <;> simp [Ordering.swap]

theorem swap_gt_iff {c : α → α → Ordering} {a b : α} (hsw : c a b = (c b a).swap) :
    c a b = .gt ↔ c b a = .lt := by
  rw [hsw]; cases c b a <;> simp [Ordering.swap]

theorem tripleLtTrans {c : α → α → Ordering} {x y z : α}
    (hyz : c y z = (c z y).swap) (hxz : c x z = (c z x).swap)
    (h1 : leT c x y z) (h2 : leT c z x y) :
    c x y = .lt → c y z = .lt → c x z = .lt := by
  intro hl1 hl2
  have le3 : c x z ≠ .gt := h1 (by rw [hl1]; simp) (by rw [hl2]; simp)
  cases hc : c x z with
  | lt => rfl
  | gt => exact absurd hc le3
  | eq =>
    have hzx : c z x ≠ .gt := by
      have hz := (swap_eq_iff hxz).mp hc
      rw [hz]
      simp
    have hzy : c z y ≠ .gt := h2 hzx (by rw [hl1]; simp)
    exact absurd ((swap_lt_iff hyz).mp hl2) hzy

theorem tripleEqLt {c : α → α → Ordering} {x y z : α}
    (hyz : c y z = (c z y).swap) (hxz : c x z = (c z x).swap)
    (h1 : leT c x y z) (h2 : leT c z x y) :
    c x y = .eq → c y z = .lt → c x z = .lt := by
  intro hl1 hl2
  have le3 : c x z ≠ .gt := h1 (by rw [hl1]; simp) (by rw [hl2]; simp)
  cases hc : c x z with
  | lt => rfl
  | gt => exact absurd hc le3
  | eq =>
    have hzx : c z x ≠ .gt := by
      have := (swap_eq_iff hxz).mp hc
      rw [this]
      simp
    have hzy : c z y ≠ .gt := h2 hzx (by rw [hl1]; simp)
    exact absurd ((swap_lt_iff hyz).mp hl2) hzy

theorem tripleLtEq {c : α → α → Ordering} {x y z : α}
    (hxy : c x y = (c y x).swap) (hxz : c x z = (c z x).swap)
    (h1 : leT c x y z) (h3 : leT c y z x) :
    c x y = .lt → c y z = .eq → c x z = .lt := by
  intro hl1 hl2
  have le3 : c x z ≠ .gt := h1 (by rw [hl1]; simp) (by rw [hl2]; simp)
  cases hc : c x z with
  | lt => rfl
  | gt => exact absurd hc le3
  | eq =>
    have hzx : c z x ≠ .gt := by
      have := (swap_eq_iff hxz).mp hc
      rw [this]
      simp
    have hyx : c y x ≠ .gt := h3 (by rw [hl2]; simp) hzx
    exact absurd ((swap_lt_iff hxy).mp hl1) hyx

theorem tripleEqTrans {c : α → α → Ordering} {x y z : α}
    (hxy : c x y = (c y x).swap) (hyz : c y z = (c z y).swap) (hxz : c x z = (c z x).swap)
    (h1 : leT c x y z) (h4 : leT c z y x) :
    c x y = .eq → c y z = .eq → c x z = .eq := by
  intro hl1 hl2
  have le3 : c x z ≠ .gt := h1 (by rw [hl1]; simp) (by rw [hl2]; simp)
  cases hc : c x z with
  | eq => rfl
  | gt => exact absurd hc le3
  | lt =>
    have hzy : c z y ≠ .gt := by
      have := (swap_eq_iff hyz).mp hl2
      rw [this]
      simp
    have hyx : c y x ≠ .gt := by
      have := (swap_eq_iff hxy).mp hl1
      rw [this]
      simp
    have hzx : c z x ≠ .gt := h4 hzy hyx
    exact absurd ((swap_lt_iff hxz).mp hc) hzx

/-- A convenient bundle: all four `leT` permutations used by the derived
transitivity facts. -/
def leT4 (c : α → α → Ordering) (x y z : α) : Prop :=
  leT c x y z ∧ leT c z x y ∧ leT c y z x ∧ leT c z y x

theorem listCmp_nil_ne_gt (c : α → α → Ordering) (zs : List α) : listCmp c [] zs ≠ .gt := by
  cases zs <;> simp [listCmp]

theorem listCmp_swap_of (c : α → α → Ordering) (xs ys : List α)
    (h : ∀ x ∈ xs, ∀ y ∈ ys, c x y = (c y x).swap) :
    listCmp c xs ys = (listCmp c ys xs).swap := by
  induction xs generalizing ys with
  | nil => cases ys <;> rfl
  | cons x xs ih =>
    cases ys with
    | nil => rfl
    | cons y ys =>
      have hxy := h x (List.mem_cons_self ..) y (List.mem_cons_self ..)
      simp only [listCmp]
      rw [hxy]
      cases hyx : c y x with
      | lt => rfl
      | gt => rfl
      | eq =>
        exact ih ys fun x hx y hy => h x (List.mem_cons_of_mem _ hx) y (List.mem_cons_of_mem _ hy)

theorem listCmp_leT_of (c : α → α → Ordering) (xs ys zs : List α)
    (hsw : ∀ a b, c a b = (c b a).swap)
    (h : ∀ x ∈ xs, ∀ y ∈ ys, ∀ z ∈ zs, leT4 c x y z) :
    leT (listCmp c) xs ys zs := by
  induction xs generalizing ys zs with
  | nil => intro _ _; exact listCmp_nil_ne_gt c zs
  | cons x xs ih =>
    intro h1 h2
    cases ys with
    | nil => simp [listCmp] at h1
    | cons y ys =>
      cases zs with
      | nil => simp [listCmp] at h2
      | cons z zs =>
        obtain ⟨l1, l2, l3, l4⟩ := h x (List.mem_cons_self ..) y (List.mem_cons_self ..)
          z (List.mem_cons_self ..)
        have htail : ∀ x ∈ xs, ∀ y ∈ ys, ∀ z ∈ zs, leT4 c x y z := fun x hx y hy z hz =>
          h x (List.mem_cons_of_mem _ hx) y (List.mem_cons_of_mem _ hy)
            z (List.mem_cons_of_mem _ hz)
        simp only [listCmp] at h1 h2 ⊢
        cases hxy : c x y with
        | gt => rw [hxy] at h1; exact absurd rfl h1
        | lt =>
          cases hyz : c y z with
          | gt => rw [hyz] at h2; exact absurd rfl h2
          | lt => rw [tripleLtTrans (hsw y z) (hsw x z) l1 l2 hxy hyz]; simp
          | eq => rw [tripleLtEq (hsw x y) (hsw x z) l1 l3 hxy hyz]; simp
        | eq =>
          cases hyz : c y z with
          | gt => rw [hyz] at h2; exact absurd rfl h2
          | lt => rw [tripleEqLt (hsw y z) (hsw x z) l1 l2 hxy hyz]; simp
          | eq =>
            rw [tripleEqTrans (hsw x y) (hsw y z) (hsw x z) l1 l4 hxy hyz]
            rw [hxy] at h1
            rw [hyz] at h2
            exact ih ys zs htail h1 h2

theorem prodCmp_swap (ck : κ → κ → Ordering) (cv : α → α → Ordering) (p q : κ × α)
    (hk : ck p.1 q.1 = (ck q.1 p.1).swap) (hv : cv p.2 q.2 = (cv q.2 p.2).swap) :
    prodCmp ck cv p q = (prodCmp ck cv q p).swap := by
  unfold prodCmp
  rw [hk]
  cases ck q.1 p.1 with
  | lt => rfl
  | gt => rfl
  | eq => exact hv

theorem prodCmp_leT (ck : κ → κ → Ordering) (cv : α → α → Ordering) (x y z : κ × α)
    (hswk : ∀ a b : κ, ck a b = (ck b a).swap)
    (hk : leT4 ck x.1 y.1 z.1) (hv : leT cv x.2 y.2 z.2) :
    leT (prodCmp ck cv) x y z := by
  obtain ⟨l1, l2, l3, l4⟩ := hk
  intro h1 h2
  unfold prodCmp at h1 h2 ⊢
  cases hxy : ck x.1 y.1 with
  | gt => rw [hxy] at h1; exact absurd rfl h1
  | lt =>
    cases hyz : ck y.1 z.1 with
    | gt => rw [hyz] at h2; exact absurd rfl h2
    | lt => rw [tripleLtTrans (hswk y.1 z.1) (hswk x.1 z.1) l1 l2 hxy hyz]; simp
    | eq => rw [tripleLtEq (hswk x.1 y.1) (hswk x.1 z.1) l1 l3 hxy hyz]; simp
  | eq =>
    cases hyz : ck y.1 z.1 with
    | gt => rw [hyz] at h2; exact absurd rfl h2
    | lt => rw [tripleEqLt (hswk y.1 z.1) (hswk x.1 z.1) l1 l2 hxy hyz]; simp
    | eq =>
      rw [tripleEqTrans (hswk x.1 y.1) (hswk y.1 z.1) (hswk x.1 z.1) l1 l4 hxy hyz]
      rw [hxy] at h1
      rw [hyz] at h2
      exact hv h1 h2

theorem strCmp_swap (a b : List Nat) : strCmp a b = (strCmp b a).swap :=
  listCmp_swap_of natCmp a b fun x _ y _ => natCmp_swap x y

theorem strCmp_leT (a b c : List Nat) : leT strCmp a b c :=
  listCmp_leT_of natCmp a b c natCmp_swap fun x _ y _ z _ =>
    ⟨natCmp_leT x y z, natCmp_leT z x y, natCmp_leT y z x, natCmp_leT z y x⟩

/-! ## Bridges from the mutually recursive comparators to `listCmp` -/

theorem valsCmp_eq_listCmp (xs ys : List Value) : valsCmp xs ys = listCmp valueCmp xs ys := by
  induction xs generalizing ys with
  | nil => cases ys <;> rfl
  | cons x xs ih =>
    cases ys with
    | nil => rfl
    | cons y ys =>
      simp only [valsCmp, listCmp]
      cases valueCmp x y <;> simp [ih]

theorem pairsCmp_eq_listCmp (xs ys : List (Value × Value)) :
    pairsCmp xs ys = listCmp (prodCmp valueCmp valueCmp) xs ys := by
  induction xs generalizing ys with
  | nil => cases ys <;> rfl
  | cons x xs ih =>
    cases ys with
    | nil => rfl
    | cons y ys =>
      obtain ⟨k, v⟩ := x
      obtain ⟨k', v'⟩ := y
      simp only [pairsCmp, listCmp, prodCmp]
      cases valueCmp k k' <;> simp [ih] <;> cases valueCmp v v' <;> simp [ih]

theorem spairsCmp_eq_listCmp (xs ys : List (List Nat × Value)) :
    spairsCmp xs ys = listCmp (prodCmp strCmp valueCmp) xs ys := by
  induction xs generalizing ys with
  | nil => cases ys <;> rfl
  | cons x xs ih =>
    cases ys with
    | nil => rfl
    | cons y ys =>
      obtain ⟨k, v⟩ := x
      obtain ⟨k', v'⟩ := y
      simp only [spairsCmp, listCmp, prodCmp]
      cases strCmp k k' <;> simp [ih] <;> cases valueCmp v v' <;> simp [ih]

/-! ## The swap law and ≤-transitivity for `valueCmp` -/

theorem valueCmp_swap (a b : Value) : valueCmp a b = (valueCmp b a).swap := by
  cases a <;> cases b <;>
    first
    | rfl
    | exact strCmp_swap ..
    | exact intCmp_swap ..
    | exact floatCmp_swap ..
    | exact boolCmp_swap ..
    | · case _ xs ys =>
        show valsCmp xs ys = (valsCmp ys xs).swap
        rw [valsCmp_eq_listCmp, valsCmp_eq_listCmp]
        exact listCmp_swap_of valueCmp xs ys fun x hx y hy => valueCmp_swap x y
    | · case _ xs ys =>
        show pairsCmp xs ys = (pairsCmp ys xs).swap
        rw [pairsCmp_eq_listCmp, pairsCmp_eq_listCmp]
        exact listCmp_swap_of _ xs ys fun p hp q hq =>
          prodCmp_swap valueCmp valueCmp p q (valueCmp_swap p.1 q.1) (valueCmp_swap p.2 q.2)
    | · case _ xs ys =>
        show spairsCmp xs ys = (spairsCmp ys xs).swap
        rw [spairsCmp_eq_listCmp, spairsCmp_eq_listCmp]
        exact listCmp_swap_of _ xs ys fun p hp q hq =>
          prodCmp_swap strCmp valueCmp p q (strCmp_swap p.1 q.1) (valueCmp_swap p.2 q.2)
termination_by sizeOf a + sizeOf b
decreasing_by
  all_goals simp_wf
  all_goals first
    | (have m1 := List.sizeOf_lt_of_mem hx; have m2 := List.sizeOf_lt_of_mem hy; omega)
    | (have m1 := List.sizeOf_lt_of_mem hp; have m2 := List.sizeOf_lt_of_mem hq;
       obtain ⟨k1, v1⟩ := p; obtain ⟨k2, v2⟩ := q; simp at *; omega)

theorem prodCmp_leT4_of (ck : κ → κ → Ordering) (cv : α → α → Ordering) (x y z : κ × α)
    (hswk : ∀ a b : κ, ck a b = (ck b a).swap)
    (hk1 : leT4 ck x.1 y.1 z.1) (hk2 : leT4 ck z.1 x.1 y.1)
    (hk3 : leT4 ck y.1 z.1 x.1) (hk4 : leT4 ck z.1 y.1 x.1)
    (hv1 : leT cv x.2 y.2 z.2) (hv2 : leT cv z.2 x.2 y.2)
    (hv3 : leT cv y.2 z.2 x.2) (hv4 : leT cv z.2 y.2 x.2) :
    leT4 (prodCmp ck cv) x y z :=
  ⟨prodCmp_leT ck cv x y z hswk hk1 hv1, prodCmp_leT ck cv z x y hswk hk2 hv2,
   prodCmp_leT ck cv y z x hswk hk3 hv3, prodCmp_leT ck cv z y x hswk hk4 hv4⟩

theorem vtag_lt_cross (a b : Value) (h : vtag a < vtag b) : valueCmp a b = .lt := by
  cases a <;> cases b <;> first | rfl | (exfalso; simp [vtag] at h)

theorem vtag_gt_cross (a b : Value) (h : vtag b < vtag a) : valueCmp a b = .gt := by
  rw [valueCmp_swap, vtag_lt_cross b a h]
  rfl

theorem eq_id_of_vtag (b : Value) (h : vtag b = 0) : ∃ s, b = .id s := by
  cases b <;> first | exact ⟨_, rfl⟩ | simp [vtag] at h

theorem eq_null_of_vtag (b : Value) (h : vtag b = 1) : b = .null := by
  cases b <;> first | rfl | simp [vtag] at h

theorem eq_int_of_vtag (b : Value) (h : vtag b = 2) : ∃ v, b = .int v := by
  cases b <;> first | exact ⟨_, rfl⟩ | simp [vtag] at h

theorem eq_float_of_vtag (b : Value) (h : vtag b = 3) : ∃ n, b = .float n := by
  cases b <;> first | exact ⟨_, rfl⟩ | simp [vtag] at h

theorem eq_bool_of_vtag (b : Value) (h : vtag b = 4) : ∃ x, b = .bool x := by
  cases b <;> first | exact ⟨_, rfl⟩ | simp [vtag] at h

theorem eq_str_of_vtag (b : Value) (h : vtag b = 5) : ∃ s, b = .str s := by
  cases b <;> first | exact ⟨_, rfl⟩ | simp [vtag] at h

theorem eq_bytes_of_vtag (b : Value) (h : vtag b = 6) : ∃ s, b = .bytes s := by
  cases b <;> first | exact ⟨_, rfl⟩ | simp [vtag] at h

theorem eq_arr_of_vtag (b : Value) (h : vtag b = 7) : ∃ vs, b = .arr vs := by
  cases b <;> first | exact ⟨_, rfl⟩ | simp [vtag] at h

theorem eq_set_of_vtag (b : Value) (h : vtag b = 8) : ∃ vs, b = .set vs := by
  cases b <;> first | exact ⟨_, rfl⟩ | simp [vtag] at h

theorem eq_map_of_vtag (b : Value) (h : vtag b = 9) : ∃ ps, b = .map ps := by
  cases b <;> first | exact ⟨_, rfl⟩ | simp [vtag] at h

theorem eq_object_of_vtag (b : Value) (h : vtag b = 10) : ∃ ps, b = .object ps := by
  cases b <;> first | exact ⟨_, rfl⟩ | simp [vtag] at h

theorem valsCmp_leT (xs ys zs : List Value)
    (hel : ∀ x ∈ xs, ∀ y ∈ ys, ∀ z ∈ zs, leT4 valueCmp x y z) : leT valsCmp xs ys zs := by
  intro h1 h2
  rw [valsCmp_eq_listCmp] at h1 h2 ⊢
  exact listCmp_leT_of valueCmp xs ys zs valueCmp_swap hel h1 h2

theorem pairsCmp_leT (xs ys zs : List (Value × Value))
    (hel : ∀ x ∈ xs, ∀ y ∈ ys, ∀ z ∈ zs, leT4 (prodCmp valueCmp valueCmp) x y z) :
    leT pairsCmp xs ys zs := by
  intro h1 h2
  rw [pairsCmp_eq_listCmp] at h1 h2 ⊢
  exact listCmp_leT_of (prodCmp valueCmp valueCmp) xs ys zs
    (fun p q => prodCmp_swap valueCmp valueCmp p q
      (valueCmp_swap p.1 q.1) (valueCmp_swap p.2 q.2)) hel h1 h2

theorem spairsCmp_leT (xs ys zs : List (List Nat × Value))
    (hel : ∀ x ∈ xs, ∀ y ∈ ys, ∀ z ∈ zs, leT4 (prodCmp strCmp valueCmp) x y z) :
    leT spairsCmp xs ys zs := by
  intro h1 h2
  rw [spairsCmp_eq_listCmp] at h1 h2 ⊢
  exact listCmp_leT_of (prodCmp strCmp valueCmp) xs ys zs
    (fun p q => prodCmp_swap strCmp valueCmp p q
      (strCmp_swap p.1 q.1) (valueCmp_swap p.2 q.2)) hel h1 h2

theorem valueCmp_leT (a b c : Value) : leT valueCmp a b c := by
  intro h1 h2
  have hab : ¬ vtag b < vtag a := fun hlt => h1 (vtag_gt_cross a b hlt)
  have hbc : ¬ vtag c < vtag b := fun hlt => h2 (vtag_gt_cross b c hlt)
  rcases Nat.lt_or_ge (vtag a) (vtag c) with hac | hac
  · rw [vtag_lt_cross a c hac]
    simp
  · cases a with
    | id s =>
      have ea : vtag (Value.id s) = 0 := rfl
      obtain ⟨t, rfl⟩ := eq_id_of_vtag b (by omega)
      obtain ⟨u, rfl⟩ := eq_id_of_vtag c (by omega)
      exact strCmp_leT s t u h1 h2
    | null =>
      have ea : vtag Value.null = 1 := rfl
      have hb := eq_null_of_vtag b (by omega)
      have hc := eq_null_of_vtag c (by omega)
      subst hb; subst hc
      intro h
      exact Ordering.noConfusion h
    | int x =>
      have ea : vtag (Value.int x) = 2 := rfl
      obtain ⟨y, rfl⟩ := eq_int_of_vtag b (by omega)
      obtain ⟨z, rfl⟩ := eq_int_of_vtag c (by omega)
      exact intCmp_leT x y z h1 h2
    | float x =>
      have ea : vtag (Value.float x) = 3 := rfl
      obtain ⟨y, rfl⟩ := eq_float_of_vtag b (by omega)
      obtain ⟨z, rfl⟩ := eq_float_of_vtag c (by omega)
      exact floatCmp_leT x y z h1 h2
    | bool x =>
      have ea : vtag (Value.bool x) = 4 := rfl
      obtain ⟨y, rfl⟩ := eq_bool_of_vtag b (by omega)
      obtain ⟨z, rfl⟩ := eq_bool_of_vtag c (by omega)
      exact boolCmp_leT x y z h1 h2
    | str s =>
      have ea : vtag (Value.str s) = 5 := rfl
      obtain ⟨t, rfl⟩ := eq_str_of_vtag b (by omega)
      obtain ⟨u, rfl⟩ := eq_str_of_vtag c (by omega)
      exact strCmp_leT s t u h1 h2
    | bytes s =>
      have ea : vtag (Value.bytes s) = 6 := rfl
      obtain ⟨t, rfl⟩ := eq_bytes_of_vtag b (by omega)
      obtain ⟨u, rfl⟩ := eq_bytes_of_vtag c (by omega)
      exact strCmp_leT s t u h1 h2
    | arr xs =>
      have ea : vtag (Value.arr xs) = 7 := rfl
      obtain ⟨ys, rfl⟩ := eq_arr_of_vtag b (by omega)
      obtain ⟨zs, rfl⟩ := eq_arr_of_vtag c (by omega)
      exact valsCmp_leT xs ys zs
        (fun x hx y hy z hz => ⟨valueCmp_leT x y z, valueCmp_leT z x y,
          valueCmp_leT y z x, valueCmp_leT z y x⟩) h1 h2
    | set xs =>
      have ea : vtag (Value.set xs) = 8 := rfl
      obtain ⟨ys, rfl⟩ := eq_set_of_vtag b (by omega)
      obtain ⟨zs, rfl⟩ := eq_set_of_vtag c (by omega)
      exact valsCmp_leT xs ys zs
        (fun x hx y hy z hz => ⟨valueCmp_leT x y z, valueCmp_leT z x y,
          valueCmp_leT y z x, valueCmp_leT z y x⟩) h1 h2
    | map xs =>
      have ea : vtag (Value.map xs) = 9 := rfl
      obtain ⟨ys, rfl⟩ := eq_map_of_vtag b (by omega)
      obtain ⟨zs, rfl⟩ := eq_map_of_vtag c (by omega)
      exact pairsCmp_leT xs ys zs
        (fun p hp q hq r hr =>
          prodCmp_leT4_of valueCmp valueCmp p q r valueCmp_swap
            ⟨valueCmp_leT p.1 q.1 r.1, valueCmp_leT r.1 p.1 q.1,
             valueCmp_leT q.1 r.1 p.1, valueCmp_leT r.1 q.1 p.1⟩
            ⟨valueCmp_leT r.1 p.1 q.1, valueCmp_leT q.1 r.1 p.1,
             valueCmp_leT p.1 q.1 r.1, valueCmp_leT q.1 p.1 r.1⟩
            ⟨valueCmp_leT q.1 r.1 p.1, valueCmp_leT p.1 q.1 r.1,
             valueCmp_leT r.1 p.1 q.1, valueCmp_leT p.1 r.1 q.1⟩
            ⟨valueCmp_leT r.1 q.1 p.1, valueCmp_leT p.1 r.1 q.1,
             valueCmp_leT q.1 p.1 r.1, valueCmp_leT p.1 q.1 r.1⟩
            (valueCmp_leT p.2 q.2 r.2) (valueCmp_leT r.2 p.2 q.2)
            (valueCmp_leT q.2 r.2 p.2) (valueCmp_leT r.2 q.2 p.2)) h1 h2
    | object xs =>
      have ea : vtag (Value.object xs) = 10 := rfl
      obtain ⟨ys, rfl⟩ := eq_object_of_vtag b (by omega)
      obtain ⟨zs, rfl⟩ := eq_object_of_vtag c (by omega)
      exact spairsCmp_leT xs ys zs
        (fun p hp q hq r hr =>
          prodCmp_leT4_of strCmp valueCmp p q r strCmp_swap
            ⟨strCmp_leT p.1 q.1 r.1, strCmp_leT r.1 p.1 q.1,
             strCmp_leT q.1 r.1 p.1, strCmp_leT r.1 q.1 p.1⟩
            ⟨strCmp_leT r.1 p.1 q.1, strCmp_leT q.1 r.1 p.1,
             strCmp_leT p.1 q.1 r.1, strCmp_leT q.1 p.1 r.1⟩
            ⟨strCmp_leT q.1 r.1 p.1, strCmp_leT p.1 q.1 r.1,
             strCmp_leT r.1 p.1 q.1, strCmp_leT p.1 r.1 q.1⟩
            ⟨strCmp_leT r.1 q.1 p.1, strCmp_leT p.1 r.1 q.1,
             strCmp_leT q.1 p.1 r.1, strCmp_leT p.1 q.1 r.1⟩
            (valueCmp_leT p.2 q.2 r.2) (valueCmp_leT r.2 p.2 q.2)
            (valueCmp_leT q.2 r.2 p.2) (valueCmp_leT r.2 q.2 p.2)) h1 h2
termination_by sizeOf a + sizeOf b + sizeOf c
decreasing_by
  all_goals simp_wf
  all_goals subst_vars
  all_goals
    first
    | (have m1 := List.sizeOf_lt_of_mem hx
       have m2 := List.sizeOf_lt_of_mem hy
       have m3 := List.sizeOf_lt_of_mem hz
       simp only [Value.arr.sizeOf_spec, Value.set.sizeOf_spec]
       omega)
    | (have m1 := List.sizeOf_lt_of_mem hp
       have m2 := List.sizeOf_lt_of_mem hq
       have m3 := List.sizeOf_lt_of_mem hr
       obtain ⟨k1, v1⟩ := p
       obtain ⟨k2, v2⟩ := q
       obtain ⟨k3, v3⟩ := r
       simp only [Prod.mk.sizeOf_spec] at m1 m2 m3
       simp only [Value.map.sizeOf_spec, Value.object.sizeOf_spec]
       omega)


/-! ## Derived transitivity corollaries for `valueCmp` and `strCmp` -/

theorem valueCmp_ltTrans (a b c : Value) :
    valueCmp a b = .lt → valueCmp b c = .lt → valueCmp a c = .lt :=
  tripleLtTrans (valueCmp_swap b c) (valueCmp_swap a c) (valueCmp_leT a b c) (valueCmp_leT c a b)

theorem valueCmp_eqTrans (a b c : Value) :
    valueCmp a b = .eq → valueCmp b c = .eq → valueCmp a c = .eq :=
  tripleEqTrans (valueCmp_swap a b) (valueCmp_swap b c) (valueCmp_swap a c)
    (valueCmp_leT a b c) (valueCmp_leT c b a)

theorem strCmp_ltTrans (a b c : List Nat) :
    strCmp a b = .lt → strCmp b c = .lt → strCmp a c = .lt :=
  tripleLtTrans (strCmp_swap b c) (strCmp_swap a c) (strCmp_leT a b c) (strCmp_leT c a b)

theorem strCmp_eqTrans (a b c : List Nat) :
    strCmp a b = .eq → strCmp b c = .eq → strCmp a c = .eq :=
  tripleEqTrans (strCmp_swap a b) (strCmp_swap b c) (strCmp_swap a c)
    (strCmp_leT a b c) (strCmp_leT c b a)

/-! ## Sorted-sequence lemmas for the BTree insertion model -/

theorem ordBeq_lt_iff (o : Ordering) : (o == Ordering.lt) = true ↔ o = .lt := by
  cases o <;> decide

theorem pairwiseLt_iff (c : α → α → Ordering) (l : List α) :
    pairwiseLt c l = true ↔ List.Pairwise (fun a b => c a b = .lt) l := by
  induction l with
  | nil => simp [pairwiseLt]
  | cons x xs ih =>
    simp only [pairwiseLt, Bool.and_eq_true, List.all_eq_true, ordBeq_lt_iff,
      List.pairwise_cons, ih]

theorem insertSet_append (c : α → α → Ordering) (x : α) (l : List α)
    (hsw : ∀ a b, c a b = (c b a).swap) (h : ∀ y ∈ l, c y x = .lt) :
    insertSet c x l = l ++ [x] := by
  induction l with
  | nil => rfl
  | cons y rest ih =>
    have hg : c x y = .gt := (swap_gt_iff (hsw x y)).mpr (h y (List.mem_cons_self ..))
    simp only [insertSet, hg]
    rw [ih fun y' hy' => h y' (List.mem_cons_of_mem _ hy')]
    rfl

theorem insertKV_append (c : κ → κ → Ordering) (k : κ) (v : α) (l : List (κ × α))
    (hsw : ∀ a b, c a b = (c b a).swap) (h : ∀ q ∈ l, c q.1 k = .lt) :
    insertKV c k v l = l ++ [(k, v)] := by
  induction l with
  | nil => rfl
  | cons q rest ih =>
    obtain ⟨k0, v0⟩ := q
    have hg : c k k0 = .gt := (swap_gt_iff (hsw k k0)).mpr (h (k0, v0) (List.mem_cons_self ..))
    simp only [insertKV, hg]
    rw [ih fun q' hq' => h q' (List.mem_cons_of_mem _ hq')]
    rfl

theorem foldl_insertSet_sorted (c : α → α → Ordering) (vs : List α)
    (hsw : ∀ a b, c a b = (c b a).swap)
    (hs : List.Pairwise (fun a b => c a b = .lt) vs) :
    vs.foldl (fun acc v => insertSet c v acc) [] = vs := by
  induction vs using List.reverseRecOn with
  | nil => rfl
  | append_singleton init x ih =>
    rw [List.foldl_append, List.foldl_cons, List.foldl_nil]
    rw [List.pairwise_append] at hs
    rw [ih hs.1]
    exact insertSet_append c x init hsw fun y hy => hs.2.2 y hy x (List.mem_singleton_self x)

theorem foldl_insertKV_sorted (c : κ → κ → Ordering) (ps : List (κ × α))
    (hsw : ∀ a b, c a b = (c b a).swap)
    (hs : List.Pairwise (fun p q => c p.1 q.1 = .lt) ps) :
    ps.foldl (fun acc p => insertKV c p.1 p.2 acc) [] = ps := by
  induction ps using List.reverseRecOn with
  | nil => rfl
  | append_singleton init x ih =>
    rw [List.foldl_append, List.foldl_cons, List.foldl_nil]
    rw [List.pairwise_append] at hs
    rw [ih hs.1]
    obtain ⟨k, v⟩ := x
    exact insertKV_append c k v init hsw fun q hq => hs.2.2 q hq (k, v) (List.mem_singleton_self _)

theorem insertKV_keys (c : κ → κ → Ordering) (k : κ) (v : α) (l : List (κ × α)) :
    ∀ q ∈ insertKV c k v l, q.1 = k ∨ ∃ p ∈ l, q.1 = p.1 := by
  induction l with
  | nil =>
    intro q hq
    rcases List.mem_singleton.mp hq with rfl
    exact Or.inl rfl
  | cons p0 rest ih =>
    obtain ⟨k0, v0⟩ := p0
    intro q hq
    simp only [insertKV] at hq
    cases hc : c k k0 <;> rw [hc] at hq
    · rcases List.mem_cons.mp hq with rfl | hq'
      · exact Or.inl rfl
      · exact Or.inr ⟨_, hq', rfl⟩
    · rcases List.mem_cons.mp hq with rfl | hq'
      · exact Or.inr ⟨(k0, v0), List.mem_cons_self .., rfl⟩
      · exact Or.inr ⟨_, List.mem_cons_of_mem _ hq', rfl⟩
    · rcases List.mem_cons.mp hq with rfl | hq'
      · exact Or.inr ⟨(k0, v0), List.mem_cons_self .., rfl⟩
      · rcases ih q hq' with h | ⟨p, hp, he⟩
        · exact Or.inl h
        · exact Or.inr ⟨p, List.mem_cons_of_mem _ hp, he⟩

theorem insertKV_pairwise (c : κ → κ → Ordering) (k : κ) (v : α) (l : List (κ × α))
    (hsw : ∀ a b : κ, c a b = (c b a).swap) (hle : ∀ a b d : κ, leT c a b d)
    (hs : List.Pairwise (fun p q => c p.1 q.1 = .lt) l) :
    List.Pairwise (fun p q => c p.1 q.1 = .lt) (insertKV c k v l) := by
  induction l with
  | nil => exact List.pairwise_singleton ..
  | cons p0 rest ih =>
    obtain ⟨k0, v0⟩ := p0
    rw [List.pairwise_cons] at hs
    simp only [insertKV]
    cases hc : c k k0
    · rw [List.pairwise_cons]
      constructor
      · intro q hq
        rcases List.mem_cons.mp hq with rfl | hq'
        · exact hc
        · exact tripleLtTrans (hsw k0 q.1) (hsw k q.1) (hle k k0 q.1) (hle q.1 k k0) hc
            (hs.1 q hq')
      · exact List.pairwise_cons.mpr hs
    · exact List.pairwise_cons.mpr ⟨hs.1, hs.2⟩
    · rw [List.pairwise_cons]
      constructor
      · intro q hq
        rcases insertKV_keys c k v rest q hq with he | ⟨p, hp, he⟩
        · rw [he]
          exact (swap_gt_iff (hsw k k0)).mp hc
        · rw [he]
          exact hs.1 p hp
      · exact ih hs.2

theorem foldl_insertKV_pairwise (c : κ → κ → Ordering) (ps : List (κ × α))
    (hsw : ∀ a b : κ, c a b = (c b a).swap) (hle : ∀ a b d : κ, leT c a b d) :
    ∀ acc, List.Pairwise (fun p q => c p.1 q.1 = .lt) acc →
      List.Pairwise (fun p q => c p.1 q.1 = .lt)
        (ps.foldl (fun acc p => insertKV c p.1 p.2 acc) acc) := by
  induction ps with
  | nil => intro acc h; exact h
  | cons p rest ih =>
    intro acc h
    rw [List.foldl_cons]
    exact ih _ (insertKV_pairwise c p.1 p.2 acc hsw hle h)

theorem lookupBy_insertKV (c : κ → κ → Ordering) (k' k : κ) (v : α) (l : List (κ × α))
    (hsw : ∀ a b : κ, c a b = (c b a).swap) (hle : ∀ a b d : κ, leT c a b d) :
    lookupBy c k' (insertKV c k v l) =
      if c k' k = .eq then some v else lookupBy c k' l := by
  induction l with
  | nil => rfl
  | cons p0 rest ih =>
    obtain ⟨k0, v0⟩ := p0
    simp only [insertKV]
    cases hc : c k k0
    · simp only [lookupBy]
    · -- equal keys: the existing key k0 is kept, the value replaced
      simp only [lookupBy]
      by_cases he : c k' k = .eq
      · have he0 : c k' k0 = .eq :=
          tripleEqTrans (hsw k' k) (hsw k k0) (hsw k' k0) (hle k' k k0) (hle k0 k k')
            he hc
        rw [if_pos he0, if_pos he]
      · have he0 : ¬ c k' k0 = .eq := by
          intro he0
          exact he (tripleEqTrans (hsw k' k0) (hsw k0 k) (hsw k' k) (hle k' k0 k) (hle k k0 k')
            he0 ((swap_eq_iff (hsw k0 k)).mpr hc))
        rw [if_neg he0, if_neg he, if_neg he0]
    · -- the new key sorts after k0: recurse
      simp only [lookupBy]
      by_cases he0 : c k' k0 = .eq
      · have hne : ¬ c k' k = .eq := by
          intro he
          have : c k0 k = .eq :=
            tripleEqTrans (hsw k0 k') (hsw k' k) (hsw k0 k) (hle k0 k' k) (hle k k' k0)
              ((swap_eq_iff (hsw k' k0)).mp he0) he
          rw [(swap_eq_iff (hsw k0 k)).mp this] at hc
          exact Ordering.noConfusion hc
        rw [if_pos he0, if_neg hne, if_pos he0]
      · rw [if_neg he0, ih]
        by_cases he : c k' k = .eq
        · rw [if_pos he, if_pos he]
        · rw [if_neg he, if_neg he, if_neg he0]

theorem foldl_lastBinding_aux (c : κ → κ → Ordering) (k : κ) (ps : List (κ × α)) :
    ∀ acc : Option α,
      ps.foldl (fun acc p => if c k p.1 = .eq then some p.2 else acc) acc =
        match ps.foldl (fun acc p => if c k p.1 = .eq then some p.2 else acc)
          (none : Option α) with
        | some v => some v
        | none => acc := by
  induction ps with
  | nil => intro acc; rfl
  | cons p rest ih =>
    intro acc
    rw [List.foldl_cons, List.foldl_cons]
    by_cases he : c k p.1 = .eq
    · rw [if_pos he, if_pos he, ih (some p.2)]
      cases hF : rest.foldl (fun acc q => if c k q.1 = .eq then some q.2 else acc)
        (none : Option α) with
      | none => rfl
      | some v => rfl
    · rw [if_neg he, if_neg he]
      rw [ih acc]

theorem lookupBy_foldl_insertKV (c : κ → κ → Ordering) (k : κ) (ps : List (κ × α))
    (hsw : ∀ a b : κ, c a b = (c b a).swap) (hle : ∀ a b d : κ, leT c a b d) :
    ∀ acc : List (κ × α),
      lookupBy c k (ps.foldl (fun acc p => insertKV c p.1 p.2 acc) acc) =
        match lastBinding c k ps with
        | some v => some v
        | none => lookupBy c k acc := by
  induction ps with
  | nil => intro acc; rfl
  | cons p rest ih =>
    intro acc
    rw [List.foldl_cons, ih (insertKV c p.1 p.2 acc),
      lookupBy_insertKV c k p.1 p.2 acc hsw hle]
    have hrhs : lastBinding c k (p :: rest) =
        match lastBinding c k rest with
        | some v => some v
        | none => if c k p.1 = .eq then some p.2 else none := by
      unfold lastBinding
      rw [List.foldl_cons]
      exact foldl_lastBinding_aux c k rest _
    rw [hrhs]
    cases lastBinding c k rest with
    | some v => rfl
    | none =>
      by_cases he : c k p.1 = .eq
      · rw [if_pos he, if_pos he]
      · rw [if_neg he, if_neg he]

/-! ## Dispatch lemmas: one step of `readValueF` per variant tag -/

theorem rdv_tag1_ok (f : Nat) (X r s : List Nat) (h : readString X = .ok (s, r)) :
    readValueF (f + 1) (be32 1 ++ X) = .ok (.id s, r) := by
  simp only [readValueF]
  rw [rdBE_append 4 _ _ (length_be32 _), beVal_be32 1 (by omega), bindOk]
  show (readString X >>= fun d => Except.ok (Value.id d.1, d.2)) = _
  rw [h, bindOk]

theorem rdv_tag1_err (f : Nat) (X : List Nat) (e : DecodeError) (h : readString X = .error e) :
    readValueF (f + 1) (be32 1 ++ X) = .error e := by
  simp only [readValueF]
  rw [rdBE_append 4 _ _ (length_be32 _), beVal_be32 1 (by omega), bindOk]
  show (readString X >>= fun d => Except.ok (Value.id d.1, d.2)) = _
  rw [h, bindErr]

theorem rdv_tag2 (f : Nat) (X : List Nat) :
    readValueF (f + 1) (be32 2 ++ X) = .ok (Value.null, X) := by
  simp only [readValueF]
  rw [rdBE_append 4 _ _ (length_be32 _), beVal_be32 2 (by omega), bindOk]
  rfl

theorem rdv_tag3_ok (f : Nat) (X r : List Nat) (v : Int) (h : readI64 X = .ok (v, r)) :
    readValueF (f + 1) (be32 3 ++ X) = .ok (.int v, r) := by
  simp only [readValueF]
  rw [rdBE_append 4 _ _ (length_be32 _), beVal_be32 3 (by omega), bindOk]
  show (readI64 X >>= fun d => Except.ok (Value.int d.1, d.2)) = _
  rw [h, bindOk]

theorem rdv_tag3_err (f : Nat) (X : List Nat) (e : DecodeError) (h : readI64 X = .error e) :
    readValueF (f + 1) (be32 3 ++ X) = .error e := by
  simp only [readValueF]
  rw [rdBE_append 4 _ _ (length_be32 _), beVal_be32 3 (by omega), bindOk]
  show (readI64 X >>= fun d => Except.ok (Value.int d.1, d.2)) = _
  rw [h, bindErr]

theorem rdv_tag4_ok (f : Nat) (X r : List Nat) (n : Nat) (h : rdBE 8 X = .ok (n, r)) :
    readValueF (f + 1) (be32 4 ++ X) = .ok (.float n, r) := by
  simp only [readValueF]
  rw [rdBE_append 4 _ _ (length_be32 _), beVal_be32 4 (by omega), bindOk]
  show (rdBE 8 X >>= fun d => Except.ok (Value.float d.1, d.2)) = _
  rw [h, bindOk]

theorem rdv_tag4_err (f : Nat) (X : List Nat) (e : DecodeError) (h : rdBE 8 X = .error e) :
    readValueF (f + 1) (be32 4 ++ X) = .error e := by
  simp only [readValueF]
  rw [rdBE_append 4 _ _ (length_be32 _), beVal_be32 4 (by omega), bindOk]
  show (rdBE 8 X >>= fun d => Except.ok (Value.float d.1, d.2)) = _
  rw [h, bindErr]

theorem rdv_tag5_ok (f : Nat) (X r : List Nat) (b : Bool) (h : readBool X = .ok (b, r)) :
    readValueF (f + 1) (be32 5 ++ X) = .ok (.bool b, r) := by
  simp only [readValueF]
  rw [rdBE_append 4 _ _ (length_be32 _), beVal_be32 5 (by omega), bindOk]
  show (readBool X >>= fun d => Except.ok (Value.bool d.1, d.2)) = _
  rw [h, bindOk]

theorem rdv_tag5_err (f : Nat) (X : List Nat) (e : DecodeError) (h : readBool X = .error e) :
    readValueF (f + 1) (be32 5 ++ X) = .error e := by
  simp only [readValueF]
  rw [rdBE_append 4 _ _ (length_be32 _), beVal_be32 5 (by omega), bindOk]
  show (readBool X >>= fun d => Except.ok (Value.bool d.1, d.2)) = _
  rw [h, bindErr]

theorem rdv_tag6_ok (f : Nat) (X r s : List Nat) (h : readString X = .ok (s, r)) :
    readValueF (f + 1) (be32 6 ++ X) = .ok (.str s, r) := by
  simp only [readValueF]
  rw [rdBE_append 4 _ _ (length_be32 _), beVal_be32 6 (by omega), bindOk]
  show (readString X >>= fun d => Except.ok (Value.str d.1, d.2)) = _
  rw [h, bindOk]

theorem rdv_tag6_err (f : Nat) (X : List Nat) (e : DecodeError) (h : readString X = .error e) :
    readValueF (f + 1) (be32 6 ++ X) = .error e := by
  simp only [readValueF]
  rw [rdBE_append 4 _ _ (length_be32 _), beVal_be32 6 (by omega), bindOk]
  show (readString X >>= fun d => Except.ok (Value.str d.1, d.2)) = _
  rw [h, bindErr]

theorem rdv_tag7_ok (f : Nat) (X r s : List Nat) (h : readString X = .ok (s, r)) :
    readValueF (f + 1) (be32 7 ++ X) = .ok (.bytes s, r) := by
  simp only [readValueF]
  rw [rdBE_append 4 _ _ (length_be32 _), beVal_be32 7 (by omega), bindOk]
  show (readString X >>= fun d => Except.ok (Value.bytes d.1, d.2)) = _
  rw [h, bindOk]

theorem rdv_tag7_err (f : Nat) (X : List Nat) (e : DecodeError) (h : readString X = .error e) :
    readValueF (f + 1) (be32 7 ++ X) = .error e := by
  simp only [readValueF]
  rw [rdBE_append 4 _ _ (length_be32 _), beVal_be32 7 (by omega), bindOk]
  show (readString X >>= fun d => Except.ok (Value.bytes d.1, d.2)) = _
  rw [h, bindErr]

theorem rdv_tag8_ok (f : Nat) (X r r' : List Nat) (n : Nat) (vs : List Value)
    (h1 : readLenField X = .ok (n, r)) (h2 : readValsF f n r = .ok (vs, r')) :
    readValueF (f + 1) (be32 8 ++ X) = .ok (.arr vs, r') := by
  simp only [readValueF]
  rw [rdBE_append 4 _ _ (length_be32 _), beVal_be32 8 (by omega), bindOk]
  show (readLenField X >>= fun d1 => readValsF f d1.1 d1.2 >>= fun d2 =>
    Except.ok (Value.arr d2.1, d2.2)) = _
  rw [h1, bindOk]
  dsimp only
  rw [h2, bindOk]

theorem rdv_tag8_err1 (f : Nat) (X : List Nat) (e : DecodeError)
    (h : readLenField X = .error e) :
    readValueF (f + 1) (be32 8 ++ X) = .error e := by
  simp only [readValueF]
  rw [rdBE_append 4 _ _ (length_be32 _), beVal_be32 8 (by omega), bindOk]
  show (readLenField X >>= fun d1 => readValsF f d1.1 d1.2 >>= fun d2 =>
    Except.ok (Value.arr d2.1, d2.2)) = _
  rw [h, bindErr]

theorem rdv_tag8_err2 (f : Nat) (X r : List Nat) (n : Nat) (e : DecodeError)
    (h1 : readLenField X = .ok (n, r)) (h2 : readValsF f n r = .error e) :
    readValueF (f + 1) (be32 8 ++ X) = .error e := by
  simp only [readValueF]
  rw [rdBE_append 4 _ _ (length_be32 _), beVal_be32 8 (by omega), bindOk]
  show (readLenField X >>= fun d1 => readValsF f d1.1 d1.2 >>= fun d2 =>
    Except.ok (Value.arr d2.1, d2.2)) = _
  rw [h1, bindOk]
  dsimp only
  rw [h2, bindErr]

theorem rdv_tag9_ok (f : Nat) (X r r' : List Nat) (n : Nat) (vs : List Value)
    (h1 : readLenField X = .ok (n, r)) (h2 : readValsF f n r = .ok (vs, r')) :
    readValueF (f + 1) (be32 9 ++ X) = .ok (.set (canonSet vs), r') := by
  simp only [readValueF]
  rw [rdBE_append 4 _ _ (length_be32 _), beVal_be32 9 (by omega), bindOk]
  show (readLenField X >>= fun d1 => readValsF f d1.1 d1.2 >>= fun d2 =>
    Except.ok (Value.set (canonSet d2.1), d2.2)) = _
  rw [h1, bindOk]
  dsimp only
  rw [h2, bindOk]

theorem rdv_tag9_err1 (f : Nat) (X : List Nat) (e : DecodeError)
    (h : readLenField X = .error e) :
    readValueF (f + 1) (be32 9 ++ X) = .error e := by
  simp only [readValueF]
  rw [rdBE_append 4 _ _ (length_be32 _), beVal_be32 9 (by omega), bindOk]
  show (readLenField X >>= fun d1 => readValsF f d1.1 d1.2 >>= fun d2 =>
    Except.ok (Value.set (canonSet d2.1), d2.2)) = _
  rw [h, bindErr]

theorem rdv_tag9_err2 (f : Nat) (X r : List Nat) (n : Nat) (e : DecodeError)
    (h1 : readLenField X = .ok (n, r)) (h2 : readValsF f n r = .error e) :
    readValueF (f + 1) (be32 9 ++ X) = .error e := by
  simp only [readValueF]
  rw [rdBE_append 4 _ _ (length_be32 _), beVal_be32 9 (by omega), bindOk]
  show (readLenField X >>= fun d1 => readValsF f d1.1 d1.2 >>= fun d2 =>
    Except.ok (Value.set (canonSet d2.1), d2.2)) = _
  rw [h1, bindOk]
  dsimp only
  rw [h2, bindErr]

theorem rdv_tag10_ok (f : Nat) (X r r' : List Nat) (n : Nat) (ps : List (Value × Value))
    (h1 : readLenField X = .ok (n, r)) (h2 : readPairsF f n r = .ok (ps, r')) :
    readValueF (f + 1) (be32 10 ++ X) = .ok (.map (canonMap ps), r') := by
  simp only [readValueF]
  rw [rdBE_append 4 _ _ (length_be32 _), beVal_be32 10 (by omega), bindOk]
  show (readLenField X >>= fun d1 => readPairsF f d1.1 d1.2 >>= fun d2 =>
    Except.ok (Value.map (canonMap d2.1), d2.2)) = _
  rw [h1, bindOk]
  dsimp only
  rw [h2, bindOk]

theorem rdv_tag10_err1 (f : Nat) (X : List Nat) (e : DecodeError)
    (h : readLenField X = .error e) :
    readValueF (f + 1) (be32 10 ++ X) = .error e := by
  simp only [readValueF]
  rw [rdBE_append 4 _ _ (length_be32 _), beVal_be32 10 (by omega), bindOk]
  show (readLenField X >>= fun d1 => readPairsF f d1.1 d1.2 >>= fun d2 =>
    Except.ok (Value.map (canonMap d2.1), d2.2)) = _
  rw [h, bindErr]

theorem rdv_tag10_err2 (f : Nat) (X r : List Nat) (n : Nat) (e : DecodeError)
    (h1 : readLenField X = .ok (n, r)) (h2 : readPairsF f n r = .error e) :
    readValueF (f + 1) (be32 10 ++ X) = .error e := by
  simp only [readValueF]
  rw [rdBE_append 4 _ _ (length_be32 _), beVal_be32 10 (by omega), bindOk]
  show (readLenField X >>= fun d1 => readPairsF f d1.1 d1.2 >>= fun d2 =>
    Except.ok (Value.map (canonMap d2.1), d2.2)) = _
  rw [h1, bindOk]
  dsimp only
  rw [h2, bindErr]

theorem rdv_tag11_ok (f : Nat) (X r r' : List Nat) (n : Nat) (ps : List (List Nat × Value))
    (h1 : readLenField X = .ok (n, r)) (h2 : readSPairsF f n r = .ok (ps, r')) :
    readValueF (f + 1) (be32 11 ++ X) = .ok (.object (canonObj ps), r') := by
  simp only [readValueF]
  rw [rdBE_append 4 _ _ (length_be32 _), beVal_be32 11 (by omega), bindOk]
  show (readLenField X >>= fun d1 => readSPairsF f d1.1 d1.2 >>= fun d2 =>
    Except.ok (Value.object (canonObj d2.1), d2.2)) = _
  rw [h1, bindOk]
  dsimp only
  rw [h2, bindOk]

theorem rdv_tag11_err1 (f : Nat) (X : List Nat) (e : DecodeError)
    (h : readLenField X = .error e) :
    readValueF (f + 1) (be32 11 ++ X) = .error e := by
  simp only [readValueF]
  rw [rdBE_append 4 _ _ (length_be32 _), beVal_be32 11 (by omega), bindOk]
  show (readLenField X >>= fun d1 => readSPairsF f d1.1 d1.2 >>= fun d2 =>
    Except.ok (Value.object (canonObj d2.1), d2.2)) = _
  rw [h, bindErr]

theorem rdv_tag11_err2 (f : Nat) (X r : List Nat) (n : Nat) (e : DecodeError)
    (h1 : readLenField X = .ok (n, r)) (h2 : readSPairsF f n r = .error e) :
    readValueF (f + 1) (be32 11 ++ X) = .error e := by
  simp only [readValueF]
  rw [rdBE_append 4 _ _ (length_be32 _), beVal_be32 11 (by omega), bindOk]
  show (readLenField X >>= fun d1 => readSPairsF f d1.1 d1.2 >>= fun d2 =>
    Except.ok (Value.object (canonObj d2.1), d2.2)) = _
  rw [h1, bindOk]
  dsimp only
  rw [h2, bindErr]

/-- `readValueF` on a buffer with fewer than 4 bytes fails with
`truncatedInput` (the `check_remaining(buf, 4)` before the variant tag). -/
theorem rdv_short (f : Nat) (buf : List Nat) (h : buf.length < 4) :
    readValueF (f + 1) buf = .error .truncatedInput := by
  simp only [readValueF]
  rw [rdBE_short 4 _ h, bindErr]

/-! ## The loop lemmas for `readValsF` / `readPairsF` / `readSPairsF` -/

theorem readValsF_zero (f : Nat) (buf : List Nat) : readValsF f 0 buf = .ok ([], buf) := by
  cases f <;> rfl

theorem readValsF_succ_ok (f n : Nat) (buf rest : List Nat) (v : Value)
    (h : readValueF f buf = .ok (v, rest)) :
    readValsF (f + 1) (n + 1) buf =
      (readValsF f n rest >>= fun d => Except.ok (v :: d.1, d.2)) := by
  simp only [readValsF]
  rw [h, bindOk]

theorem readValsF_succ_err (f n : Nat) (buf : List Nat) (e : DecodeError)
    (h : readValueF f buf = .error e) :
    readValsF (f + 1) (n + 1) buf = .error e := by
  simp only [readValsF]
  rw [h, bindErr]

theorem readPairsF_zero (f : Nat) (buf : List Nat) : readPairsF f 0 buf = .ok ([], buf) := by
  cases f <;> rfl

theorem readPairsF_succ_ok (f n : Nat) (buf rest rest' : List Nat) (k v : Value)
    (hk : readValueF f buf = .ok (k, rest)) (hv : readValueF f rest = .ok (v, rest')) :
    readPairsF (f + 1) (n + 1) buf =
      (readPairsF f n rest' >>= fun d => Except.ok ((k, v) :: d.1, d.2)) := by
  simp only [readPairsF]
  rw [hk, bindOk]
  dsimp only
  rw [hv, bindOk]

theorem readPairsF_succ_err1 (f n : Nat) (buf : List Nat) (e : DecodeError)
    (h : readValueF f buf = .error e) :
    readPairsF (f + 1) (n + 1) buf = .error e := by
  simp only [readPairsF]
  rw [h, bindErr]

theorem readPairsF_succ_err2 (f n : Nat) (buf rest : List Nat) (k : Value) (e : DecodeError)
    (hk : readValueF f buf = .ok (k, rest)) (hv : readValueF f rest = .error e) :
    readPairsF (f + 1) (n + 1) buf = .error e := by
  simp only [readPairsF]
  rw [hk, bindOk]
  dsimp only
  rw [hv, bindErr]

theorem readSPairsF_zero (f : Nat) (buf : List Nat) : readSPairsF f 0 buf = .ok ([], buf) := by
  cases f <;> rfl

theorem readSPairsF_succ_ok (f n : Nat) (buf rest rest' : List Nat) (k : List Nat) (v : Value)
    (hk : readString buf = .ok (k, rest)) (hv : readValueF f rest = .ok (v, rest')) :
    readSPairsF (f + 1) (n + 1) buf =
      (readSPairsF f n rest' >>= fun d => Except.ok ((k, v) :: d.1, d.2)) := by
  simp only [readSPairsF]
  rw [hk, bindOk]
  dsimp only
  rw [hv, bindOk]

theorem readSPairsF_succ_err1 (f n : Nat) (buf : List Nat) (e : DecodeError)
    (h : readString buf = .error e) :
    readSPairsF (f + 1) (n + 1) buf = .error e := by
  simp only [readSPairsF]
  rw [h, bindErr]

theorem readSPairsF_succ_err2 (f n : Nat) (buf rest : List Nat) (k : List Nat) (e : DecodeError)
    (hk : readString buf = .ok (k, rest)) (hv : readValueF f rest = .error e) :
    readSPairsF (f + 1) (n + 1) buf = .error e := by
  simp only [readSPairsF]
  rw [hk, bindOk]
  dsimp only
  rw [hv, bindErr]

/-! ## Length and fuel bounds for successful writes -/

theorem writeStr_ok_length (s bs : List Nat) (h : writeStr s = .ok bs) :
    bs.length = 4 + s.length := by
  obtain ⟨_, rfl⟩ := writeStr_ok s bs h
  simp [length_be32]

theorem writeValue_ok_length (v : Value) (bs : List Nat) (h : writeValue v = .ok bs) :
    4 ≤ bs.length := by
  cases v with
  | id s =>
    obtain ⟨sb, hs, rfl⟩ := writeValue_id_ok s _ h
    simp [length_be32]
  | null =>
    simp only [writeValue] at h
    injection h with h'
    rw [← h']
    simp [be32]
  | int v =>
    simp only [writeValue] at h
    injection h with h'
    rw [← h']
    simp [be32, be64]
  | float n =>
    simp only [writeValue] at h
    injection h with h'
    rw [← h']
    simp [be32, be64]
  | bool b =>
    simp only [writeValue] at h
    injection h with h'
    rw [← h']
    simp [be32]
  | str s =>
    obtain ⟨sb, hs, rfl⟩ := writeValue_str_ok s _ h
    simp [length_be32]
  | bytes s =>
    obtain ⟨sb, hs, rfl⟩ := writeValue_bytes_ok s _ h
    simp [length_be32]
  | arr vs =>
    obtain ⟨body, hb, hn, rfl⟩ := writeValue_arr_ok vs _ h
    simp [length_be32]
  | set vs =>
    obtain ⟨body, hb, hn, rfl⟩ := writeValue_set_ok vs _ h
    simp [length_be32]
  | map ps =>
    obtain ⟨body, hb, hn, rfl⟩ := writeValue_map_ok ps _ h
    simp [length_be32]
  | object ps =>
    obtain ⟨body, hb, hn, rfl⟩ := writeValue_object_ok ps _ h
    simp [length_be32]

theorem vfuel_pos (v : Value) : 1 ≤ vfuel v := by
  cases v <;> simp [vfuel]

mutual

theorem vfuel_le_length (v : Value) (bs : List Nat) (h : writeValue v = .ok bs) :
    vfuel v + 1 ≤ bs.length := by
  cases v with
  | arr vs =>
    obtain ⟨body, hb, hn, rfl⟩ := writeValue_arr_ok vs _ h
    have := vsfuel_le_length vs body hb
    simp only [vfuel, List.length_append, length_be32]
    omega
  | set vs =>
    obtain ⟨body, hb, hn, rfl⟩ := writeValue_set_ok vs _ h
    have := vsfuel_le_length vs body hb
    simp only [vfuel, List.length_append, length_be32]
    omega
  | map ps =>
    obtain ⟨body, hb, hn, rfl⟩ := writeValue_map_ok ps _ h
    have := psfuel_le_length ps body hb
    simp only [vfuel, List.length_append, length_be32]
    omega
  | object ps =>
    obtain ⟨body, hb, hn, rfl⟩ := writeValue_object_ok ps _ h
    have := spfuel_le_length ps body hb
    simp only [vfuel, List.length_append, length_be32]
    omega
  | id s =>
    have := writeValue_ok_length _ _ h
    simp only [vfuel]
    omega
  | null =>
    have := writeValue_ok_length _ _ h
    simp only [vfuel]
    omega
  | int v =>
    have := writeValue_ok_length _ _ h
    simp only [vfuel]
    omega
  | float n =>
    have := writeValue_ok_length _ _ h
    simp only [vfuel]
    omega
  | bool b =>
    have := writeValue_ok_length _ _ h
    simp only [vfuel]
    omega
  | str s =>
    have := writeValue_ok_length _ _ h
    simp only [vfuel]
    omega
  | bytes s =>
    have := writeValue_ok_length _ _ h
    simp only [vfuel]
    omega

theorem vsfuel_le_length (vs : List Value) (bs : List Nat) (h : writeVals vs = .ok bs) :
    vsfuel vs ≤ bs.length + 1 := by
  cases vs with
  | nil => simp [vsfuel]
  | cons v vs =>
    obtain ⟨b, rest, hv, hr, rfl⟩ := writeVals_cons_ok v vs _ h
    have h1 := vfuel_le_length v b hv
    have h2 := vsfuel_le_length vs rest hr
    have h3 := writeValue_ok_length v b hv
    simp only [vsfuel, List.length_append]
    omega

theorem psfuel_le_length (ps : List (Value × Value)) (bs : List Nat)
    (h : writePairs ps = .ok bs) : psfuel ps ≤ bs.length + 1 := by
  cases ps with
  | nil => simp [psfuel]
  | cons p ps =>
    obtain ⟨k, v⟩ := p
    obtain ⟨bk, bv, rest, hk, hv, hr, rfl⟩ := writePairs_cons_ok k v ps _ h
    have h1 := vfuel_le_length k bk hk
    have h2 := vfuel_le_length v bv hv
    have h3 := psfuel_le_length ps rest hr
    have h4 := writeValue_ok_length k bk hk
    have h5 := writeValue_ok_length v bv hv
    simp only [psfuel, List.length_append]
    omega

theorem spfuel_le_length (ps : List (List Nat × Value)) (bs : List Nat)
    (h : writeSPairs ps = .ok bs) : spfuel ps ≤ bs.length + 1 := by
  cases ps with
  | nil => simp [spfuel]
  | cons p ps =>
    obtain ⟨k, v⟩ := p
    obtain ⟨bk, bv, rest, hk, hv, hr, rfl⟩ := writeSPairs_cons_ok k v ps _ h
    have h1 := writeStr_ok_length k bk hk
    have h2 := vfuel_le_length v bv hv
    have h3 := spfuel_le_length ps rest hr
    have h4 := writeValue_ok_length v bv hv
    simp only [spfuel, List.length_append]
    omega

end

/-! ## Decode inverts encode (with arbitrary trailing bytes) -/

mutual

theorem readValueF_write (v : Value) (bs rest : List Nat) (fuel : Nat)
    (hwf : wf v = true) (hw : writeValue v = .ok bs) (hf : vfuel v ≤ fuel) :
    readValueF fuel (bs ++ rest) = .ok (v, rest) := by
  cases fuel with
  | zero => exact absurd ((vfuel_pos v).trans hf) (by decide)
  | succ f =>
    cases v with
    | id s =>
      obtain ⟨sb, hs, rfl⟩ := writeValue_id_ok s _ hw
      rw [List.append_assoc]
      exact rdv_tag1_ok f (sb ++ rest) rest s (readString_of_writeStr s sb rest hs)
    | null =>
      simp only [writeValue] at hw
      injection hw with h'
      subst h'
      exact rdv_tag2 f rest
    | int v =>
      simp only [writeValue] at hw
      injection hw with h'
      subst h'
      simp only [wf, Bool.and_eq_true, decide_eq_true_eq] at hwf
      rw [List.append_assoc]
      exact rdv_tag3_ok f _ rest v (readI64_of_write v rest hwf.1 hwf.2)
    | float n =>
      simp only [writeValue] at hw
      injection hw with h'
      subst h'
      simp only [wf, decide_eq_true_eq] at hwf
      rw [List.append_assoc]
      exact rdv_tag4_ok f _ rest n
        (by rw [rdBE_append 8 _ _ (length_be64 _), beVal_be64 n hwf])
    | bool b =>
      simp only [writeValue] at hw
      injection hw with h'
      subst h'
      rw [List.append_assoc, List.singleton_append]
      exact rdv_tag5_ok f _ rest b (readBool_of_write b rest)
    | str s =>
      obtain ⟨sb, hs, rfl⟩ := writeValue_str_ok s _ hw
      rw [List.append_assoc]
      exact rdv_tag6_ok f (sb ++ rest) rest s (readString_of_writeStr s sb rest hs)
    | bytes s =>
      obtain ⟨sb, hs, rfl⟩ := writeValue_bytes_ok s _ hw
      rw [List.append_assoc]
      exact rdv_tag7_ok f (sb ++ rest) rest s (readString_of_writeStr s sb rest hs)
    | arr vs =>
      obtain ⟨body, hb, hn, rfl⟩ := writeValue_arr_ok vs _ hw
      simp only [wf] at hwf
      simp only [vfuel] at hf
      rw [List.append_assoc, List.append_assoc]
      exact rdv_tag8_ok f _ _ rest vs.length vs
        (readLenField_be32 vs.length (body ++ rest) hn)
        (readValsF_write vs body rest f hwf hb (by omega))
    | set vs =>
      obtain ⟨body, hb, hn, rfl⟩ := writeValue_set_ok vs _ hw
      simp only [wf, Bool.and_eq_true] at hwf
      simp only [vfuel] at hf
      have hc : canonSet vs = vs :=
        foldl_insertSet_sorted valueCmp vs valueCmp_swap
          ((pairwiseLt_iff valueCmp vs).mp hwf.2)
      rw [List.append_assoc, List.append_assoc]
      exact (rdv_tag9_ok f _ _ rest vs.length vs
        (readLenField_be32 vs.length (body ++ rest) hn)
        (readValsF_write vs body rest f hwf.1 hb (by omega))).trans (by rw [hc])
    | map ps =>
      obtain ⟨body, hb, hn, rfl⟩ := writeValue_map_ok ps _ hw
      simp only [wf, Bool.and_eq_true] at hwf
      simp only [vfuel] at hf
      have hc : canonMap ps = ps :=
        foldl_insertKV_sorted valueCmp ps valueCmp_swap
          ((pairwiseLt_iff (keyCmp valueCmp) ps).mp hwf.2)
      rw [List.append_assoc, List.append_assoc]
      exact (rdv_tag10_ok f _ _ rest ps.length ps
        (readLenField_be32 ps.length (body ++ rest) hn)
        (readPairsF_write ps body rest f hwf.1 hb (by omega))).trans (by rw [hc])
    | object ps =>
      obtain ⟨body, hb, hn, rfl⟩ := writeValue_object_ok ps _ hw
      simp only [wf, Bool.and_eq_true] at hwf
      simp only [vfuel] at hf
      have hc : canonObj ps = ps :=
        foldl_insertKV_sorted strCmp ps strCmp_swap
          ((pairwiseLt_iff (keyCmp strCmp) ps).mp hwf.2)
      rw [List.append_assoc, List.append_assoc]
      exact (rdv_tag11_ok f _ _ rest ps.length ps
        (readLenField_be32 ps.length (body ++ rest) hn)
        (readSPairsF_write ps body rest f hwf.1 hb (by omega))).trans (by rw [hc])

theorem readValsF_write (vs : List Value) (bs rest : List Nat) (f : Nat)
    (hwf : wfVals vs = true) (hw : writeVals vs = .ok bs) (hf : vsfuel vs ≤ f) :
    readValsF f vs.length (bs ++ rest) = .ok (vs, rest) := by
  cases vs with
  | nil =>
    simp only [writeVals] at hw
    injection hw with h'
    subst h'
    rw [List.nil_append]
    exact readValsF_zero f rest
  | cons v vs =>
    obtain ⟨b, rest', hv, hr, rfl⟩ := writeVals_cons_ok v vs _ hw
    simp only [wfVals, Bool.and_eq_true] at hwf
    simp only [vsfuel] at hf
    cases f with
    | zero => exact absurd hf (by omega)
    | succ f' =>
      rw [List.append_assoc, List.length_cons]
      rw [readValsF_succ_ok f' vs.length _ _ v
        (readValueF_write v b (rest' ++ rest) f' hwf.1 hv (by omega))]
      rw [readValsF_write vs rest' rest f' hwf.2 hr (by omega), bindOk]

theorem readPairsF_write (ps : List (Value × Value)) (bs rest : List Nat) (f : Nat)
    (hwf : wfPairs ps = true) (hw : writePairs ps = .ok bs) (hf : psfuel ps ≤ f) :
    readPairsF f ps.length (bs ++ rest) = .ok (ps, rest) := by
  cases ps with
  | nil =>
    simp only [writePairs] at hw
    injection hw with h'
    subst h'
    rw [List.nil_append]
    exact readPairsF_zero f rest
  | cons p ps =>
    obtain ⟨k, v⟩ := p
    obtain ⟨bk, bv, rest', hk, hv, hr, rfl⟩ := writePairs_cons_ok k v ps _ hw
    simp only [wfPairs, Bool.and_eq_true] at hwf
    simp only [psfuel] at hf
    cases f with
    | zero => exact absurd hf (by omega)
    | succ f' =>
      rw [List.append_assoc, List.append_assoc, List.length_cons]
      rw [readPairsF_succ_ok f' ps.length _ _ _ k v
        (readValueF_write k bk (bv ++ (rest' ++ rest)) f' hwf.1.1 hk (by omega))
        (readValueF_write v bv (rest' ++ rest) f' hwf.1.2 hv (by omega))]
      rw [readPairsF_write ps rest' rest f' hwf.2 hr (by omega), bindOk]

theorem readSPairsF_write (ps : List (List Nat × Value)) (bs rest : List Nat) (f : Nat)
    (hwf : wfSPairs ps = true) (hw : writeSPairs ps = .ok bs) (hf : spfuel ps ≤ f) :
    readSPairsF f ps.length (bs ++ rest) = .ok (ps, rest) := by
  cases ps with
  | nil =>
    simp only [writeSPairs] at hw
    injection hw with h'
    subst h'
    rw [List.nil_append]
    exact readSPairsF_zero f rest
  | cons p ps =>
    obtain ⟨k, v⟩ := p
    obtain ⟨bk, bv, rest', hk, hv, hr, rfl⟩ := writeSPairs_cons_ok k v ps _ hw
    simp only [wfSPairs, Bool.and_eq_true] at hwf
    simp only [spfuel] at hf
    cases f with
    | zero => exact absurd hf (by omega)
    | succ f' =>
      rw [List.append_assoc, List.append_assoc, List.length_cons]
      rw [readSPairsF_succ_ok f' ps.length _ _ _ k v
        (readString_of_writeStr k bk (bv ++ (rest' ++ rest)) hk)
        (readValueF_write v bv (rest' ++ rest) f' hwf.1.2 hv (by omega))]
      rw [readSPairsF_write ps rest' rest f' hwf.2 hr (by omega), bindOk]

end

/-! ## Claim C1: the round-trip law -/

/-- Claim C1: decoding the bytes produced by encoding any constructible
(well-formed) `Value` yields that value back exactly — including the
canonical ordering of `Set`/`Map`/`Object` contents, which `wf` captures —
and consumes the whole buffer. -/
theorem c1_roundtrip (v : Value) (bs : List Nat) (hwf : wf v = true)
    (hw : writeValue v = .ok bs) : readValue bs = .ok (v, []) := by
  unfold readValue
  have h4 := vfuel_le_length v bs hw
  have h := readValueF_write v bs [] (bs.length + 1) hwf hw (by omega)
  rw [List.append_nil] at h
  exact h

/-- Witness for `c1_roundtrip`: the spec's own example
`Object{"a": Integer(1), "b": Array([Null, Boolean(true)])}` (keys as
UTF-8 bytes) decodes from its encoding. -/
theorem c1_roundtrip_witness :
    readValue [0, 0, 0, 11, 0, 0, 0, 2, 0, 0, 0, 1, 97, 0, 0, 0, 3, 0, 0, 0, 0, 0, 0, 0, 1,
        0, 0, 0, 1, 98, 0, 0, 0, 8, 0, 0, 0, 2, 0, 0, 0, 2, 0, 0, 0, 5, 1] =
      .ok (.object [([97], .int 1), ([98], .arr [.null, .bool true])], []) :=
  c1_roundtrip (.object [([97], .int 1), ([98], .arr [.null, .bool true])]) _ (by rfl) (by rfl)

/-! ## Truncation micro-lemmas -/

theorem readLenField_trunc (X : List Nat) (h : X.length < 4) :
    readLenField X = .error .truncatedInput := by
  unfold readLenField
  rw [rdBE_short 4 _ h, bindErr]

theorem readI64_trunc (X : List Nat) (h : X.length < 8) :
    readI64 X = .error .truncatedInput := by
  unfold readI64
  rw [rdBE_short 8 _ h, bindErr]

/-! ## Truncating any valid encoding fails with `truncatedInput` -/

mutual

theorem readValueF_trunc (v : Value) (bs : List Nat) (k fuel : Nat)
    (hwf : wf v = true) (hw : writeValue v = .ok bs) (hk : k < bs.length)
    (hf : k + 1 ≤ fuel) :
    readValueF fuel (bs.take k) = .error .truncatedInput := by
  cases fuel with
  | zero => exact absurd hf (by omega)
  | succ f =>
    rcases Nat.lt_or_ge k 4 with h4 | h4
    · exact rdv_short f _ (by rw [List.length_take]; omega)
    · cases v with
      | id s =>
        obtain ⟨sb, hs, rfl⟩ := writeValue_id_ok s _ hw
        rw [take_append_of_length_le _ _ _ (by rw [length_be32]; omega), length_be32]
        rw [List.length_append, length_be32] at hk
        exact rdv_tag1_err f _ _ (readString_trunc s sb (k - 4) hs (by omega))
      | null =>
        simp only [writeValue] at hw
        injection hw with h'
        subst h'
        rw [length_be32] at hk
        omega
      | int v =>
        simp only [writeValue] at hw
        injection hw with h'
        subst h'
        rw [take_append_of_length_le _ _ _ (by rw [length_be32]; omega), length_be32]
        rw [List.length_append, length_be32, length_be64] at hk
        exact rdv_tag3_err f _ _ (readI64_trunc _ (by rw [List.length_take, length_be64]; omega))
      | float n =>
        simp only [writeValue] at hw
        injection hw with h'
        subst h'
        rw [take_append_of_length_le _ _ _ (by rw [length_be32]; omega), length_be32]
        rw [List.length_append, length_be32, length_be64] at hk
        exact rdv_tag4_err f _ _ (rdBE_short 8 _ (by rw [List.length_take, length_be64]; omega))
      | bool b =>
        simp only [writeValue] at hw
        injection hw with h'
        subst h'
        rw [take_append_of_length_le _ _ _ (by rw [length_be32]; omega), length_be32]
        rw [List.length_append, length_be32] at hk
        have hz : k - 4 = 0 := by simp at hk; omega
        rw [hz]
        exact rdv_tag5_err f _ _ (by rw [List.take_zero]; rfl)
      | str s =>
        obtain ⟨sb, hs, rfl⟩ := writeValue_str_ok s _ hw
        rw [take_append_of_length_le _ _ _ (by rw [length_be32]; omega), length_be32]
        rw [List.length_append, length_be32] at hk
        exact rdv_tag6_err f _ _ (readString_trunc s sb (k - 4) hs (by omega))
      | bytes s =>
        obtain ⟨sb, hs, rfl⟩ := writeValue_bytes_ok s _ hw
        rw [take_append_of_length_le _ _ _ (by rw [length_be32]; omega), length_be32]
        rw [List.length_append, length_be32] at hk
        exact rdv_tag7_err f _ _ (readString_trunc s sb (k - 4) hs (by omega))
      | arr vs =>
        obtain ⟨body, hb, hn, rfl⟩ := writeValue_arr_ok vs _ hw
        simp only [wf] at hwf
        rw [List.append_assoc, take_append_of_length_le _ _ _ (by rw [length_be32]; omega),
          length_be32]
        simp only [List.length_append, length_be32] at hk
        rcases Nat.lt_or_ge k 8 with h8 | h8
        · exact rdv_tag8_err1 f _ _ (readLenField_trunc _
            (by rw [List.length_take, List.length_append, length_be32]; omega))
        · rw [take_append_of_length_le _ _ _ (by rw [length_be32]; omega), length_be32]
          exact rdv_tag8_err2 f _ _ vs.length _
            (readLenField_be32 vs.length _ hn)
            (readValsF_trunc vs body (k - 4 - 4) f hwf hb (by omega) (by omega))
      | set vs =>
        obtain ⟨body, hb, hn, rfl⟩ := writeValue_set_ok vs _ hw
        simp only [wf, Bool.and_eq_true] at hwf
        rw [List.append_assoc, take_append_of_length_le _ _ _ (by rw [length_be32]; omega),
          length_be32]
        simp only [List.length_append, length_be32] at hk
        rcases Nat.lt_or_ge k 8 with h8 | h8
        · exact rdv_tag9_err1 f _ _ (readLenField_trunc _
            (by rw [List.length_take, List.length_append, length_be32]; omega))
        · rw [take_append_of_length_le _ _ _ (by rw [length_be32]; omega), length_be32]
          exact rdv_tag9_err2 f _ _ vs.length _
            (readLenField_be32 vs.length _ hn)
            (readValsF_trunc vs body (k - 4 - 4) f hwf.1 hb (by omega) (by omega))
      | map ps =>
        obtain ⟨body, hb, hn, rfl⟩ := writeValue_map_ok ps _ hw
        simp only [wf, Bool.and_eq_true] at hwf
        rw [List.append_assoc, take_append_of_length_le _ _ _ (by rw [length_be32]; omega),
          length_be32]
        simp only [List.length_append, length_be32] at hk
        rcases Nat.lt_or_ge k 8 with h8 | h8
        · exact rdv_tag10_err1 f _ _ (readLenField_trunc _
            (by rw [List.length_take, List.length_append, length_be32]; omega))
        · rw [take_append_of_length_le _ _ _ (by rw [length_be32]; omega), length_be32]
          exact rdv_tag10_err2 f _ _ ps.length _
            (readLenField_be32 ps.length _ hn)
            (readPairsF_trunc ps body (k - 4 - 4) f hwf.1 hb (by omega) (by omega))
      | object ps =>
        obtain ⟨body, hb, hn, rfl⟩ := writeValue_object_ok ps _ hw
        simp only [wf, Bool.and_eq_true] at hwf
        rw [List.append_assoc, take_append_of_length_le _ _ _ (by rw [length_be32]; omega),
          length_be32]
        simp only [List.length_append, length_be32] at hk
        rcases Nat.lt_or_ge k 8 with h8 | h8
        · exact rdv_tag11_err1 f _ _ (readLenField_trunc _
            (by rw [List.length_take, List.length_append, length_be32]; omega))
        · rw [take_append_of_length_le _ _ _ (by rw [length_be32]; omega), length_be32]
          exact rdv_tag11_err2 f _ _ ps.length _
            (readLenField_be32 ps.length _ hn)
            (readSPairsF_trunc ps body (k - 4 - 4) f hwf.1 hb (by omega) (by omega))

theorem readValsF_trunc (vs : List Value) (bs : List Nat) (k f : Nat)
    (hwf : wfVals vs = true) (hw : writeVals vs = .ok bs) (hk : k < bs.length)
    (hf : k + 2 ≤ f) :
    readValsF f vs.length (bs.take k) = .error .truncatedInput := by
  cases vs with
  | nil =>
    simp only [writeVals] at hw
    injection hw with h'
    subst h'
    simp at hk
  | cons v vs =>
    obtain ⟨b, rest', hv, hr, rfl⟩ := writeVals_cons_ok v vs _ hw
    simp only [wfVals, Bool.and_eq_true] at hwf
    have hbl := writeValue_ok_length v b hv
    rw [List.length_append] at hk
    cases f with
    | zero => exact absurd hf (by omega)
    | succ f' =>
      rw [List.length_cons]
      rcases Nat.lt_or_ge k b.length with hsplit | hsplit
      · rw [List.take_append_of_le_length (by omega)]
        exact readValsF_succ_err f' vs.length _ _
          (readValueF_trunc v b k f' hwf.1 hv hsplit (by omega))
      · rw [take_append_of_length_le _ _ _ hsplit]
        have hfl := vfuel_le_length v b hv
        rw [readValsF_succ_ok f' vs.length _ _ v
          (readValueF_write v b _ f' hwf.1 hv (by omega))]
        rw [readValsF_trunc vs rest' (k - b.length) f' hwf.2 hr (by omega) (by omega), bindErr]

theorem readPairsF_trunc (ps : List (Value × Value)) (bs : List Nat) (k f : Nat)
    (hwf : wfPairs ps = true) (hw : writePairs ps = .ok bs) (hk : k < bs.length)
    (hf : k + 2 ≤ f) :
    readPairsF f ps.length (bs.take k) = .error .truncatedInput := by
  cases ps with
  | nil =>
    simp only [writePairs] at hw
    injection hw with h'
    subst h'
    simp at hk
  | cons p ps =>
    obtain ⟨kk, vv⟩ := p
    obtain ⟨bk, bv, rest', hbk, hbv, hr, rfl⟩ := writePairs_cons_ok kk vv ps _ hw
    simp only [wfPairs, Bool.and_eq_true] at hwf
    have hkl := writeValue_ok_length kk bk hbk
    have hvl := writeValue_ok_length vv bv hbv
    have hkf := vfuel_le_length kk bk hbk
    have hvf := vfuel_le_length vv bv hbv
    rw [List.append_assoc]
    rw [List.append_assoc, List.length_append, List.length_append] at hk
    cases f with
    | zero => exact absurd hf (by omega)
    | succ f' =>
      rw [List.length_cons]
      rcases Nat.lt_or_ge k bk.length with hs1 | hs1
      · rw [List.take_append_of_le_length (by omega)]
        exact readPairsF_succ_err1 f' ps.length _ _
          (readValueF_trunc kk bk k f' hwf.1.1 hbk hs1 (by omega))
      · rw [take_append_of_length_le _ _ _ hs1]
        rcases Nat.lt_or_ge (k - bk.length) bv.length with hs2 | hs2
        · rw [List.take_append_of_le_length (by omega)]
          exact readPairsF_succ_err2 f' ps.length _ _ kk _
            (readValueF_write kk bk _ f' hwf.1.1 hbk (by omega))
            (readValueF_trunc vv bv (k - bk.length) f' hwf.1.2 hbv hs2 (by omega))
        · rw [take_append_of_length_le _ _ _ hs2]
          rw [readPairsF_succ_ok f' ps.length _ _ _ kk vv
            (readValueF_write kk bk _ f' hwf.1.1 hbk (by omega))
            (readValueF_write vv bv _ f' hwf.1.2 hbv (by omega))]
          rw [readPairsF_trunc ps rest' (k - bk.length - bv.length) f' hwf.2 hr
            (by omega) (by omega), bindErr]

theorem readSPairsF_trunc (ps : List (List Nat × Value)) (bs : List Nat) (k f : Nat)
    (hwf : wfSPairs ps = true) (hw : writeSPairs ps = .ok bs) (hk : k < bs.length)
    (hf : k + 2 ≤ f) :
    readSPairsF f ps.length (bs.take k) = .error .truncatedInput := by
  cases ps with
  | nil =>
    simp only [writeSPairs] at hw
    injection hw with h'
    subst h'
    simp at hk
  | cons p ps =>
    obtain ⟨kk, vv⟩ := p
    obtain ⟨bk, bv, rest', hbk, hbv, hr, rfl⟩ := writeSPairs_cons_ok kk vv ps _ hw
    simp only [wfSPairs, Bool.and_eq_true] at hwf
    have hkl := writeStr_ok_length kk bk hbk
    have hvl := writeValue_ok_length vv bv hbv
    have hvf := vfuel_le_length vv bv hbv
    rw [List.append_assoc]
    rw [List.append_assoc, List.length_append, List.length_append] at hk
    cases f with
    | zero => exact absurd hf (by omega)
    | succ f' =>
      rw [List.length_cons]
      rcases Nat.lt_or_ge k bk.length with hs1 | hs1
      · rw [List.take_append_of_le_length (by omega)]
        exact readSPairsF_succ_err1 f' ps.length _ _
          (readString_trunc kk bk k hbk hs1)
      · rw [take_append_of_length_le _ _ _ hs1]
        rcases Nat.lt_or_ge (k - bk.length) bv.length with hs2 | hs2
        · rw [List.take_append_of_le_length (by omega)]
          exact readSPairsF_succ_err2 f' ps.length _ _ kk _
            (readString_of_writeStr kk bk _ hbk)
            (readValueF_trunc vv bv (k - bk.length) f' hwf.1.2 hbv hs2 (by omega))
        · rw [take_append_of_length_le _ _ _ hs2]
          rw [readSPairsF_succ_ok f' ps.length _ _ _ kk vv
            (readString_of_writeStr kk bk _ hbk)
            (readValueF_write vv bv _ f' hwf.1.2 hbv (by omega))]
          rw [readSPairsF_trunc ps rest' (k - bk.length - bv.length) f' hwf.2 hr
            (by omega) (by omega), bindErr]

end

/-! ## Claim C6: truncation -/

/-- Claim C6: truncating the valid encoding of any constructible `Value`
at any byte boundary strictly before its end makes decode fail with the
truncated-input condition — it never succeeds with a wrong value, and as
`readValue` returns only this error (no partial output), the failure is
all-or-nothing for the top-level value. -/
theorem c6_truncation (v : Value) (bs : List Nat) (k : Nat) (hwf : wf v = true)
    (hw : writeValue v = .ok bs) (hk : k < bs.length) :
    readValue (bs.take k) = .error .truncatedInput := by
  unfold readValue
  have hl : (bs.take k).length = k := List.length_take_of_le (by omega)
  rw [hl]
  exact readValueF_trunc v bs k (k + 1) hwf hw hk (le_refl _)

/-- Witness for `c6_truncation`: the spec example's encoding cut after 17
bytes (inside the `Integer(1)` payload) fails with `truncatedInput`. -/
theorem c6_truncation_witness :
    readValue (List.take 17 [0, 0, 0, 11, 0, 0, 0, 2, 0, 0, 0, 1, 97, 0, 0, 0, 3, 0, 0, 0, 0,
      0, 0, 0, 1, 0, 0, 0, 1, 98, 0, 0, 0, 8, 0, 0, 0, 2, 0, 0, 0, 2, 0, 0, 0, 5, 1]) =
      .error .truncatedInput :=
  c6_truncation (.object [([97], .int 1), ([98], .arr [.null, .bool true])]) _ 17
    (by rfl) (by rfl) (by decide)

/-! ## Claim C10: decoding duplicate-key Map/Object streams -/

theorem rawObjectBytes_eq (ps : List (List Nat × Value)) :
    rawObjectBytes ps = writeValue (.object ps) := rfl

theorem rawMapBytes_eq (ps : List (Value × Value)) :
    rawMapBytes ps = writeValue (.map ps) := rfl

/-- Claim C10: a Map or Object byte stream whose entry list `ps`/`qs` may
be unsorted and contain duplicate keys decodes successfully to the
`BTreeMap` insertion of the entries in stream order; the result has
canonically ordered (hence unique) keys, and looking any key up in the
result yields the value of that key's last occurrence in the stream. -/
theorem c10_duplicate_keys (ps : List (List Nat × Value)) (qs : List (Value × Value))
    (bso bsm : List Nat)
    (hpwf : wfSPairs ps = true) (hqwf : wfPairs qs = true)
    (hpo : rawObjectBytes ps = .ok bso) (hqm : rawMapBytes qs = .ok bsm) :
    (readValue bso = .ok (.object (canonObj ps), []) ∧
      List.Pairwise (fun p q => strCmp p.1 q.1 = .lt) (canonObj ps) ∧
      ∀ key, lookupBy strCmp key (canonObj ps) = lastBinding strCmp key ps) ∧
    (readValue bsm = .ok (.map (canonMap qs), []) ∧
      List.Pairwise (fun p q => valueCmp p.1 q.1 = .lt) (canonMap qs) ∧
      ∀ key, lookupBy valueCmp key (canonMap qs) = lastBinding valueCmp key qs) := by
  rw [rawObjectBytes_eq] at hpo
  rw [rawMapBytes_eq] at hqm
  constructor
  · obtain ⟨body, hb, hn, rfl⟩ := writeValue_object_ok ps _ hpo
    refine ⟨?_, ?_, ?_⟩
    · unfold readValue
      have hfl := spfuel_le_length ps body hb
      have hL : (be32 11 ++ be32 ps.length ++ body).length = 8 + body.length := by
        simp [length_be32]; omega
      rw [hL, List.append_assoc]
      have hsp := readSPairsF_write ps body [] (8 + body.length) hpwf hb (by omega)
      rw [List.append_nil] at hsp
      exact rdv_tag11_ok (8 + body.length) _ _ [] ps.length ps
        (readLenField_be32 ps.length body hn) hsp
    · exact foldl_insertKV_pairwise strCmp ps strCmp_swap strCmp_leT [] (List.Pairwise.nil)
    · intro key
      have h := lookupBy_foldl_insertKV strCmp key ps strCmp_swap strCmp_leT []
      rw [show canonObj ps = ps.foldl (fun acc p => insertKV strCmp p.1 p.2 acc) [] from rfl, h]
      unfold lastBinding
      cases ps.foldl (fun acc p => if strCmp key p.1 = .eq then some p.2 else acc)
        (none : Option Value) with
      | some v => rfl
      | none => rfl
  · obtain ⟨body, hb, hn, rfl⟩ := writeValue_map_ok qs _ hqm
    refine ⟨?_, ?_, ?_⟩
    · unfold readValue
      have hfl := psfuel_le_length qs body hb
      have hL : (be32 10 ++ be32 qs.length ++ body).length = 8 + body.length := by
        simp [length_be32]; omega
      rw [hL, List.append_assoc]
      have hsp := readPairsF_write qs body [] (8 + body.length) hqwf hb (by omega)
      rw [List.append_nil] at hsp
      exact rdv_tag10_ok (8 + body.length) _ _ [] qs.length qs
        (readLenField_be32 qs.length body hn) hsp
    · exact foldl_insertKV_pairwise valueCmp qs valueCmp_swap valueCmp_leT [] (List.Pairwise.nil)
    · intro key
      have h := lookupBy_foldl_insertKV valueCmp key qs valueCmp_swap valueCmp_leT []
      rw [show canonMap qs = qs.foldl (fun acc p => insertKV valueCmp p.1 p.2 acc) [] from rfl, h]
      unfold lastBinding
      cases qs.foldl (fun acc p => if valueCmp key p.1 = .eq then some p.2 else acc)
        (none : Option Value) with
      | some v => rfl
      | none => rfl

/-- Witness for `c10_duplicate_keys`: an Object stream declaring two
entries for the key `"a"` decodes to a one-entry object holding the later
value, and a Map stream declaring the key `Int 5` twice decodes to a
one-entry map holding the later value — so re-encoding yields fewer
entries than the stream declared. -/
theorem c10_duplicate_keys_witness :
    readValue [0, 0, 0, 11, 0, 0, 0, 2, 0, 0, 0, 1, 97, 0, 0, 0, 3, 0, 0, 0, 0, 0, 0, 0, 1,
        0, 0, 0, 1, 97, 0, 0, 0, 3, 0, 0, 0, 0, 0, 0, 0, 2] =
      .ok (.object [([97], .int 2)], []) ∧
    readValue [0, 0, 0, 10, 0, 0, 0, 2, 0, 0, 0, 3, 0, 0, 0, 0, 0, 0, 0, 5, 0, 0, 0, 2,
        0, 0, 0, 3, 0, 0, 0, 0, 0, 0, 0, 5, 0, 0, 0, 5, 1] =
      .ok (.map [(.int 5, .bool true)], []) := by
  have h := c10_duplicate_keys [([97], .int 1), ([97], .int 2)]
    [(.int 5, .null), (.int 5, .bool true)]
    [0, 0, 0, 11, 0, 0, 0, 2, 0, 0, 0, 1, 97, 0, 0, 0, 3, 0, 0, 0, 0, 0, 0, 0, 1,
      0, 0, 0, 1, 97, 0, 0, 0, 3, 0, 0, 0, 0, 0, 0, 0, 2]
    [0, 0, 0, 10, 0, 0, 0, 2, 0, 0, 0, 3, 0, 0, 0, 0, 0, 0, 0, 5, 0, 0, 0, 2,
      0, 0, 0, 3, 0, 0, 0, 0, 0, 0, 0, 5, 0, 0, 0, 5, 1]
    (by rfl) (by rfl) (by rfl) (by rfl)
  exact ⟨h.1.1, h.2.1⟩

end ConvexFFI
